import Mathlib

/-!
Verification development for the OLC_assembler repository (Rust sources under
src/).  The Rust code is shallowly embedded: HashMaps become association
lists iterated in insertion order (the Rust maps iterate in an unspecified
order; every concrete computation below is insensitive to that order, as
argued at each use), u32/i64 arithmetic becomes Int/Nat arithmetic with
explicit wrapping where the source casts, f64 quantities become exact
fractions (the few constants involved, 0.5, 2.999, 9.5 ..., make every
compared branch decision identical under f64), and fallible code returns
Except.
Loops whose termination rests on a runtime argument are given explicit fuel
that dominates the loop bound established in a comment at the definition.
-/

/-- An oriented node id.  The source encodes an oriented node as the string
`name ++ [sign]` where sign is '+' or '-' (format!("{}+", name) etc.); since
the sign is exactly one character this encoding is injective, so we keep the
two components.  The strand character is kept as a Char because the PAF
parser accepts any character in the strand field. -/
structure NodeId where
  name : String
  sign : Char
deriving DecidableEq, Repr

/-- rc_node from transitive_edge_reduction.rs / bubble_removal.rs /
heuristic_simplification.rs / utils.rs: flip a trailing '+' to '-' and
vice versa; any other trailing character is left unchanged (the source
prints a warning and returns the id). -/
def rc_node (id : NodeId) : NodeId :=
  if id.sign = '+' then ⟨id.name, '-'⟩
  else if id.sign = '-' then ⟨id.name, '+'⟩
  else id


/-- Exact rational arithmetic for the f64 quantities of the source.  A
fraction num/den with den > 0 at every use; values are kept unnormalized so
that every operation reduces inside the kernel (Rat normalization does
not).  All f64 branch decisions modelled below involve only values that f64
represents exactly (small integers and short decimal constants scaled by
small integers), so exact-rational comparison decides each branch the same
way f64 comparison does; this is noted again at each concrete computation. -/
structure Frac where
  num : Int
  den : Nat
deriving DecidableEq, Repr

instance : OfNat Frac n := ⟨⟨n, 1⟩⟩

instance : Add Frac := ⟨fun a b => ⟨a.num * b.den + b.num * a.den, a.den * b.den⟩⟩

instance : Sub Frac := ⟨fun a b => ⟨a.num * b.den - b.num * a.den, a.den * b.den⟩⟩

instance : Mul Frac := ⟨fun a b => ⟨a.num * b.num, a.den * b.den⟩⟩

instance : LT Frac := ⟨fun a b => a.num * (b.den : Int) < b.num * (a.den : Int)⟩

instance : LE Frac := ⟨fun a b => a.num * (b.den : Int) ≤ b.num * (a.den : Int)⟩

instance (a b : Frac) : Decidable (a < b) :=
  inferInstanceAs (Decidable (a.num * (b.den : Int) < b.num * (a.den : Int)))

instance (a b : Frac) : Decidable (a ≤ b) :=
  inferInstanceAs (Decidable (a.num * (b.den : Int) ≤ b.num * (a.den : Int)))

/-- Value equality of fractions (f64 `==`). -/
def Frac.eqv (a b : Frac) : Prop := a.num * (b.den : Int) = b.num * (a.den : Int)

instance (a b : Frac) : Decidable (a.eqv b) :=
  inferInstanceAs (Decidable (a.num * (b.den : Int) = b.num * (a.den : Int)))

/-- Embed a Nat (u32 `as f64`, exact). -/
def Frac.ofNat (n : Nat) : Frac := ⟨n, 1⟩

/-- Embed an Int (i64 `as f64`; exact below 2^53, which covers every value
on which a proved statement depends). -/
def Frac.ofInt (n : Int) : Frac := ⟨n, 1⟩

/-- Division (used only with a nonzero divisor; a zero divisor corresponds
to a NaN in the source, and every call site is guarded). -/
def Frac.div (a b : Frac) : Frac :=
  if 0 ≤ b.num then ⟨a.num * b.den, a.den * b.num.toNat⟩
  else ⟨-(a.num * (b.den : Int)), a.den * (-b.num).toNat⟩

/-- f64::floor composed with the integer cast (for nonnegative dens). -/
def Frac.floor (a : Frac) : Int := Int.fdiv a.num a.den

/-- f64::ceil (for positive dens). -/
def Frac.ceil (a : Frac) : Int := -(Int.fdiv (-a.num) a.den)

/-- EdgeInfo from create_overlap_graph.rs. -/
structure EdgeInfo where
  target_id : NodeId
  edge_len : Nat
  overlap_len : Nat
  identity : Frac
deriving DecidableEq, Repr

/-- Node from create_overlap_graph.rs (the node_id field is the key of the
enclosing map and is dropped here). -/
structure Node where
  edges : List EdgeInfo
deriving DecidableEq, Repr

/-- OverlapGraph from create_overlap_graph.rs.  The HashMap of nodes becomes
an association list kept in insertion order; lookups take the first match
(keys are never duplicated: insertion happens only through addNode, which
checks for presence). -/
structure OverlapGraph where
  nodes : List (NodeId × Node)
deriving DecidableEq, Repr

namespace OverlapGraph

/-- Map lookup: g.nodes.get(id). -/
def getNode (g : OverlapGraph) (id : NodeId) : Option Node :=
  (g.nodes.find? (fun p => p.1 = id)).map Prod.snd

/-- Replace the node stored under `id` (no-op when absent), preserving the
position of the entry. -/
def setNode (g : OverlapGraph) (id : NodeId) (n : Node) : OverlapGraph :=
  ⟨g.nodes.map (fun p => if p.1 = id then (p.1, n) else p)⟩

/-- OverlapGraph::add_node: insert an empty node if the key is absent. -/
def add_node (g : OverlapGraph) (id : NodeId) : OverlapGraph :=
  if (g.nodes.find? (fun p => p.1 = id)).isSome then g
  else ⟨g.nodes ++ [(id, ⟨[]⟩)]⟩

/-- Node membership. -/
def hasNode (g : OverlapGraph) (id : NodeId) : Bool :=
  (g.nodes.find? (fun p => p.1 = id)).isSome

/-- The list of node keys, in iteration order. -/
def keys (g : OverlapGraph) : List NodeId := g.nodes.map Prod.fst

/-- Number of nodes. -/
def nodeCount (g : OverlapGraph) : Nat := g.nodes.length

/-- Total number of directed edges. -/
def edgeCount (g : OverlapGraph) : Nat :=
  (g.nodes.map (fun p => p.2.edges.length)).sum

end OverlapGraph

/-- Node::add_edge: ignore the insertion when an edge to the same target is
already present, otherwise push the new edge at the end. -/
def Node.add_edge (n : Node) (target : NodeId) (edge_len overlap_len : Nat)
    (identity : Frac) : Node :=
  if n.edges.any (fun e => e.target_id = target) then n
  else ⟨n.edges ++ [⟨target, edge_len, overlap_len, identity⟩]⟩

/-- Vec::swap_remove at index i: the element at i is replaced by the last
element, which is then dropped.  (For i pointing at the last element this is
a plain pop.) -/
def List.swapRemove (l : List EdgeInfo) (i : Nat) : List EdgeInfo :=
  match l.getLast? with
  | none => l
  | some last =>
      if i + 1 = l.length then l.dropLast
      else (l.dropLast.set i last)

/-- Node::remove_edge: swap_remove the first edge whose target matches
(no-op when absent). -/
def Node.remove_edge (n : Node) (target : NodeId) : Node :=
  match n.edges.findIdx? (fun e => e.target_id = target) with
  | none => n
  | some i => ⟨n.edges.swapRemove i⟩

/-- OverlapGraph::add_edge.  The source panics when either endpoint is
missing; every call site below adds both nodes first, so the defensive
branch returning the graph unchanged is unreachable there. -/
def OverlapGraph.add_edge (g : OverlapGraph) (from_id to_id : NodeId)
    (edge_len overlap_len : Nat) (identity : Frac) : OverlapGraph :=
  if g.hasNode from_id ∧ g.hasNode to_id then
    match g.getNode from_id with
    | none => g
    | some n => g.setNode from_id (n.add_edge to_id edge_len overlap_len identity)
  else g

/-- Remove the directed edge from `from_id` whose target is `to_id`
(used by the passes; corresponds to get_mut + Node::remove_edge). -/
def OverlapGraph.removeEdge (g : OverlapGraph) (from_id to_id : NodeId) : OverlapGraph :=
  match g.getNode from_id with
  | none => g
  | some n => g.setNode from_id (n.remove_edge to_id)

/-- Is there an edge from `u` to `v`? -/
def OverlapGraph.edgePresent (g : OverlapGraph) (u v : NodeId) : Bool :=
  match g.getNode u with
  | none => false
  | some n => n.edges.any (fun e => e.target_id = v)

/-- The first edge from `u` to `v`, if any. -/
def OverlapGraph.findEdge (g : OverlapGraph) (u v : NodeId) : Option EdgeInfo :=
  match g.getNode u with
  | none => none
  | some n => n.edges.find? (fun e => e.target_id = v)

/-! ## PAF records and create_overlap_graph (create_overlap_graph.rs) -/

/-- A parsed PAF record, the tuple produced by parse_paf_line.  Lengths and
counts are u32 in the source (hence < 2^32); starts/ends are i64. -/
structure PafRec where
  query_name : String
  query_length : Nat
  query_start : Int
  query_end : Int
  strand : Char
  target_name : String
  target_length : Nat
  target_start : Int
  target_end : Int
  num_matching : Nat
  alignment_block_length : Nat
  mapq : Int
deriving DecidableEq, Repr

/-- i64::saturating_sub. -/
def i64SatSub (x y : Int) : Int :=
  max (min (x - y) (2 ^ 63 - 1)) (-(2 ^ 63))

/-- `as i64` cast of a (nonnegative-or-negative) f64 value: saturating.
We model the f64 value by the exact rational; f64 rounding is exact for all
magnitudes below 2^53, which covers every branch decision proved below. -/
def i64SatOfRat (q : Frac) : Int :=
  max (min q.ceil (2 ^ 63 - 1)) (-(2 ^ 63))

/-- `as u32` cast of an f64 value: saturating (Rust float-to-int casts
saturate). -/
def u32SatOfInt (x : Int) : Nat :=
  if x < 0 then 0 else min x.toNat (2 ^ 32 - 1)

/-- `as u32` cast of an i64 value: wrapping (Rust int-to-int casts keep the
low bits). -/
def u32WrapOfInt (x : Int) : Nat :=
  (x % (2 ^ 32)).toNat

/-- Counters from create_overlap_graph.rs. -/
structure OverlapGraphStats where
  nr_internal_match : Nat := 0
  nr_first_contained : Nat := 0
  nr_second_contained : Nat := 0
  nr_proper_overlaps : Nat := 0
deriving DecidableEq, Repr

/-- Body of the per-record loop of create_overlap_graph (create_overlap_graph.rs,
lines 142-281), acting on one parsed record. -/
def processPafRecord (max_overhang : Nat) (overhangRat : Frac)
    (st : OverlapGraph × OverlapGraphStats) (r : PafRec) :
    OverlapGraph × OverlapGraphStats :=
  let g := st.1
  let stats := st.2
  let b1 : Int := r.query_start
  let e1 : Int := r.query_end
  let l1 : Int := (r.query_length : Int)
  let tl : Int := (r.target_length : Int)
  let b2 : Int := if r.strand = '+' then r.target_start else tl - r.target_end
  let e2 : Int := if r.strand = '+' then r.target_end else tl - r.target_start
  let l2 : Int := tl
  let overhang_left := min b1 b2
  let overhang_right := min (l1 - e1) (l2 - e2)
  let overhang := overhang_left + overhang_right
  let overlap_length1 := i64SatSub e1 b1
  let overlap_length2 := i64SatSub e2 b2
  let overlap_length : Int := max overlap_length1 overlap_length2
  let overhang_threshold := i64SatOfRat (Frac.ofInt overlap_length * overhangRat)
  let allowed_overhang := min (max_overhang : Int) overhang_threshold
  if overhang > allowed_overhang then
    (g, { stats with nr_internal_match := stats.nr_internal_match + 1 })
  else
    let first_contained := b1 ≤ b2 ∧ (l1 - e1) ≤ (l2 - e2)
    let second_contained := b1 ≥ b2 ∧ (l1 - e1) ≥ (l2 - e2)
    if first_contained then
      (g, { stats with nr_first_contained := stats.nr_first_contained + 1 })
    else if second_contained then
      (g, { stats with nr_second_contained := stats.nr_second_contained + 1 })
    else
      let overlap_len := u32SatOfInt overlap_length
      let identity : Frac :=
        if r.alignment_block_length = 0 then 0
        else Frac.div (Frac.ofNat r.num_matching) (Frac.ofNat r.alignment_block_length)
      let q_plus : NodeId := ⟨r.query_name, '+'⟩
      let t_orient : NodeId := ⟨r.target_name, r.strand⟩
      let q_minus : NodeId := ⟨r.query_name, '-'⟩
      let rc_strand : Char := if r.strand = '+' then '-' else '+'
      let t_rc : NodeId := ⟨r.target_name, rc_strand⟩
      if b1 > b2 then
        -- first read to second read overlap (query -> target)
        let g := (g.add_node q_plus).add_node t_orient
        let edge1_len_i64 := b1 - b2
        let g :=
          if 0 ≤ edge1_len_i64 then
            g.add_edge q_plus t_orient (u32WrapOfInt edge1_len_i64) overlap_len identity
          else g
        let g := (g.add_node q_minus).add_node t_rc
        let edge2_len_i64 := (l2 - e2) - (l1 - e1)
        let g :=
          if 0 ≤ edge2_len_i64 then
            g.add_edge t_rc q_minus (u32WrapOfInt edge2_len_i64) overlap_len identity
          else g
        (g, { stats with nr_proper_overlaps := stats.nr_proper_overlaps + 1 })
      else
        -- second to first overlap (target -> query)
        let g := (g.add_node q_plus).add_node t_orient
        let edge1_len_i64 := b2 - b1
        let g :=
          if 0 ≤ edge1_len_i64 then
            g.add_edge t_orient q_plus (u32WrapOfInt edge1_len_i64) overlap_len identity
          else g
        let g := (g.add_node q_minus).add_node t_rc
        let edge2_len_i64 := (l1 - e1) - (l2 - e2)
        let g :=
          if 0 ≤ edge2_len_i64 then
            g.add_edge q_minus t_rc (u32WrapOfInt edge2_len_i64) overlap_len identity
          else g
        (g, { stats with nr_proper_overlaps := stats.nr_proper_overlaps + 1 })

/-- create_overlap_graph (create_overlap_graph.rs): fold the per-record body
over the list of parsed records (header, blank and malformed lines are
dropped by the reader before this loop). -/
def create_overlap_graph (records : List PafRec) (max_overhang : Nat)
    (overhangRat : Frac) : OverlapGraph × OverlapGraphStats :=
  records.foldl (processPafRecord max_overhang overhangRat) (⟨[]⟩, {})

/-! ## alignment_filtering.rs: classify_alignment and filter_paf -/

/-- Overlap record from alignment_filtering.rs. -/
structure Overlap where
  source_name : NodeId
  rc_sink_name : NodeId
  sink_name : NodeId
  rc_source_name : NodeId
  edge_len : Nat
  edge_len_orig : Nat
  rc_edge_len : Nat
  rc_edge_len_orig : Nat
  overlap_len : Nat
  identity : Frac
deriving DecidableEq, Repr

/-- AlignmentType from alignment_filtering.rs. -/
inductive AlignmentType where
  | Filtered
  | InternalMatch
  | FirstContained
  | SecondContained
  | ProperOverlap
deriving DecidableEq, Repr

/-- percent_identity (f32 in the source, exact rational here; the f32
rounding never changes a branch decision proved below).  A zero block
length gives NaN in Rust; callers only compare the value with `<`, and a
NaN comparison is false, which the caller models directly. -/
def percentIdentity (num_matching alignment_block_length : Nat) : Frac :=
  (Frac.div (Frac.ofNat num_matching) (Frac.ofNat alignment_block_length)) * 100

/-- classify_alignment (alignment_filtering.rs, lines 99-278).  The per-read
data consulted is the coverage window of the query and target reads
(coverage_start/coverage_end, u32).  Instead of mutating the overlaps map the
function returns the Overlap it inserts, if any; the source keys the insert
by (query_id, target_id). -/
def classify_alignment (r : PafRec) (q_cov_start q_cov_end t_cov_start t_cov_end : Nat)
    (overhangRat : Frac) (min_overlap_length : Nat) :
    AlignmentType × Option Overlap :=
  let query_start : Int := max r.query_start (q_cov_start : Int)
  let query_end : Int := min r.query_end (q_cov_end : Int)
  let target_start : Int := max r.target_start (t_cov_start : Int)
  let target_end : Int := min r.target_end (t_cov_end : Int)
  let query_length : Int := (q_cov_end : Int) - (q_cov_start : Int)
  let target_length : Int := (t_cov_end : Int) - (t_cov_start : Int)
  let b1_orig : Int := r.query_start
  let e1_orig : Int := r.query_end
  let l1_orig : Int := (r.query_length : Int)
  let tl : Int := (r.target_length : Int)
  let b2_orig : Int := if r.strand = '+' then r.target_start else tl - r.target_end
  let e2_orig : Int := if r.strand = '+' then r.target_end else tl - r.target_start
  let l2_orig : Int := tl
  let b1 := query_start
  let e1 := query_end
  let l1 := query_length
  let b2 : Int := if r.strand = '+' then target_start else target_length - target_end
  let e2 : Int := if r.strand = '+' then target_end else target_length - target_start
  let l2 : Int := target_length
  let overhang_left := min b1 b2
  let overhang_right := min (l1 - e1) (l2 - e2)
  let overhang := overhang_left + overhang_right
  let overlap_length1 := e1 - b1
  let overlap_length2 := e2 - b2
  let overlap_length : Int := max overlap_length1 overlap_length2
  let overhang_threshold := i64SatOfRat (Frac.ofInt overlap_length * overhangRat)
  let allowed_overhang := overhang_threshold
  if overhang > allowed_overhang then
    (AlignmentType.InternalMatch, none)
  else if (b1 ≤ b2 ∧ (l1 - e1) ≤ (l2 - e2)) then
    (AlignmentType.FirstContained, none)
  else if (b1 ≥ b2 ∧ (l1 - e1) ≥ (l2 - e2)) then
    (AlignmentType.SecondContained, none)
  else if overlap_length1 + overhang_left + overhang_right < (min_overlap_length : Int)
      ∨ overlap_length2 + overhang_left + overhang_right < (min_overlap_length : Int) then
    (AlignmentType.Filtered, none)
  else
    let q_plus : NodeId := ⟨r.query_name, '+'⟩
    let t_orient : NodeId := ⟨r.target_name, r.strand⟩
    let q_minus : NodeId := ⟨r.query_name, '-'⟩
    let rc_strand : Char := if r.strand = '+' then '-' else '+'
    let t_rc : NodeId := ⟨r.target_name, rc_strand⟩
    let identity : Frac :=
      if r.alignment_block_length = 0 then 0
      else percentIdentity r.num_matching r.alignment_block_length
    if b1 > b2 then
      let edge1_len_i64 := b1 - b2
      let edge2_len_i64 := (l2 - e2) - (l1 - e1)
      let edge1_len_orig := b1_orig - b2_orig
      let edge2_len_orig := (l2_orig - e2_orig) - (l1_orig - e1_orig)
      if 0 < edge1_len_orig ∧ 0 < edge2_len_orig then
        (AlignmentType.ProperOverlap, some
          { source_name := q_plus
            rc_sink_name := q_minus
            sink_name := t_orient
            rc_source_name := t_rc
            edge_len := u32WrapOfInt edge1_len_i64
            edge_len_orig := u32WrapOfInt edge1_len_orig
            rc_edge_len := u32WrapOfInt edge2_len_i64
            rc_edge_len_orig := u32WrapOfInt edge2_len_orig
            overlap_len := u32SatOfInt overlap_length
            identity := identity })
      else (AlignmentType.ProperOverlap, none)
    else
      let edge1_len_i64 := b2 - b1
      let edge2_len_i64 := (l1 - e1) - (l2 - e2)
      let edge1_len_orig := b2_orig - b1_orig
      let edge2_len_orig := (l1_orig - e1_orig) - (l2_orig - e2_orig)
      if 0 < edge1_len_orig ∧ 0 < edge2_len_orig then
        (AlignmentType.ProperOverlap, some
          { source_name := t_orient
            rc_source_name := q_minus
            sink_name := q_plus
            rc_sink_name := t_rc
            edge_len := u32WrapOfInt edge1_len_i64
            edge_len_orig := u32WrapOfInt edge1_len_orig
            rc_edge_len := u32WrapOfInt edge2_len_i64
            rc_edge_len_orig := u32WrapOfInt edge2_len_orig
            overlap_len := u32SatOfInt overlap_length
            identity := identity })
      else (AlignmentType.ProperOverlap, none)

/-- Read from alignment_filtering.rs. -/
structure Read where
  id : Nat
  name : String
  length : Nat
  per_base_coverage : List Nat
  coverage_start : Nat
  coverage_end : Nat
deriving DecidableEq, Repr

/-- `as usize` cast of an i64 value: wrapping. -/
def usizeWrapOfInt (x : Int) : Nat :=
  (x % (2 ^ 64)).toNat

/-- Increment the coverage slots in [s, e).  In the source this is a slice
`[s..e]` mutation, which panics when the range is invalid or out of bounds;
the model clips at the array bounds.  The two folds related by the theorem
about pass 1 use this same model, so the claim is unaffected, and theorems
about emitted overlaps assume in-range coordinates (established in Rust by
the very fact that this slicing did not panic). -/
def incrementRange (l : List Nat) (s e : Nat) : List Nat :=
  l.mapIdx (fun i c => if s ≤ i ∧ i < e then c + 1 else c)

/-- State of pass 1 of filter_paf (alignment_filtering.rs, lines 283-298). -/
structure FilterState where
  read_name2read_id : List (String × Nat)
  reads : List Read
  alignments : List ((Nat × Nat) × PafRec)
  alignment_ids_per_read : List (List Nat)
  next_id : Nat
deriving Repr

/-- Assoc-list lookup for the read-name map. -/
def lookupName (m : List (String × Nat)) (s : String) : Option Nat :=
  (m.find? (fun p => p.1 = s)).map Prod.snd

/-- Assoc-list lookup of a stored alignment. -/
def lookupAln (m : List ((Nat × Nat) × PafRec)) (k : Nat × Nat) : Option PafRec :=
  (m.find? (fun p => p.1 = k)).map Prod.snd

/-- Assoc-list insert-or-replace for the alignments map. -/
def insertAln (m : List ((Nat × Nat) × PafRec)) (k : Nat × Nat) (r : PafRec) :
    List ((Nat × Nat) × PafRec) :=
  if (m.find? (fun p => p.1 = k)).isSome then
    m.map (fun p => if p.1 = k then (k, r) else p)
  else m ++ [(k, r)]

/-- Remove a key from the alignments map. -/
def removeAln (m : List ((Nat × Nat) × PafRec)) (k : Nat × Nat) :
    List ((Nat × Nat) × PafRec) :=
  m.filter (fun p => ¬ p.1 = k)

/-- Get-or-create of a read id in pass 1 (both the query and the target
arm; `len` is the length recorded for the new read and `covEnd` the initial
coverage_end, which the source sets to record.query_length in Both arms --
for the target arm this is a slip kept faithfully; pass 2 overwrites it). -/
def getOrCreateRead (st : FilterState) (nm : String) (len : Nat) (covEnd : Nat) :
    Nat × FilterState :=
  match lookupName st.read_name2read_id nm with
  | some id => (id, st)
  | none =>
      let id := st.next_id
      let newRead : Read :=
        { id := id, name := nm, length := len,
          per_base_coverage := List.replicate len 0,
          coverage_start := 0, coverage_end := covEnd }
      (id, { st with
              next_id := id + 1,
              read_name2read_id := st.read_name2read_id ++ [(nm, id)],
              alignment_ids_per_read := st.alignment_ids_per_read ++ [[]],
              reads := st.reads ++ [newRead] })

/-- Update the coverage array of read `id` over [s, e). -/
def updateReadCoverage (reads : List Read) (id : Nat) (s e : Nat) : List Read :=
  reads.mapIdx (fun i rd =>
    if i = id then { rd with per_base_coverage := incrementRange rd.per_base_coverage s e }
    else rd)

/-- Does this record pass the three crude filters of pass 1 (not a
self-alignment, both aligned spans at least min_overlap_length, percent
identity at least min_percent_identity)?  A zero block length makes
percent_identity NaN in Rust and the `<` comparison false, so such records
pass the identity filter; modelled by the explicit zero test. -/
def passesCrudeFilters (r : PafRec) (min_overlap_length : Nat) (minPid : Frac) : Bool :=
  ¬ r.query_name = r.target_name
  ∧ (min_overlap_length : Int) ≤ r.query_end - r.query_start
  ∧ (min_overlap_length : Int) ≤ r.target_end - r.target_start
  ∧ (r.alignment_block_length = 0 ∨ minPid ≤ percentIdentity r.num_matching r.alignment_block_length)

/-- Body of the pass-1 loop of filter_paf (alignment_filtering.rs, lines
306-399) for one parsed record. -/
def filterPafPass1Step (min_overlap_length : Nat) (minPid : Frac)
    (st : FilterState) (r : PafRec) : FilterState :=
  if ¬ passesCrudeFilters r min_overlap_length minPid then st
  else
    let (query_id, st) := getOrCreateRead st r.query_name r.query_length r.query_length
    let (target_id, st) := getOrCreateRead st r.target_name r.target_length r.query_length
    let qstart := usizeWrapOfInt r.query_start
    let qend := usizeWrapOfInt r.query_end
    let tstart := usizeWrapOfInt r.target_start
    let tend := usizeWrapOfInt r.target_end
    let st :=
      if (st.alignment_ids_per_read.getD query_id []).contains target_id then
        match lookupAln st.alignments (query_id, target_id) with
        | some existing =>
            if existing.alignment_block_length < r.alignment_block_length then
              { st with alignments := insertAln st.alignments (query_id, target_id) r }
            else st
        | none =>
            match lookupAln st.alignments (target_id, query_id) with
            | some existing =>
                if existing.alignment_block_length < r.alignment_block_length then
                  let m := removeAln st.alignments (target_id, query_id)
                  { st with alignments := insertAln m (query_id, target_id) r }
                else st
            | none => st
      else
        let ids1 := st.alignment_ids_per_read.mapIdx (fun i s =>
          if i = query_id then s ++ [target_id] else s)
        let ids2 := ids1.mapIdx (fun i s =>
          if i = target_id then s ++ [query_id] else s)
        { st with
            alignment_ids_per_read := ids2,
            alignments := insertAln st.alignments (query_id, target_id) r }
    let reads2 := updateReadCoverage
      (updateReadCoverage st.reads query_id qstart qend) target_id tstart tend
    { st with reads := reads2 }

/-- Pass 1 of filter_paf: fold the body over the records of the PAF file. -/
def filterPafPass1 (records : List PafRec) (min_overlap_length : Nat)
    (minPid : Frac) : FilterState :=
  records.foldl (filterPafPass1Step min_overlap_length minPid)
    { read_name2read_id := [], reads := [], alignments := [],
      alignment_ids_per_read := [], next_id := 0 }

/-- Pass 2 of filter_paf (alignment_filtering.rs, lines 414-435): longest
run of positions with coverage strictly above min_overlap_count; end is
exclusive; (0,0) when there is no such position. -/
def coverageWindow (cov : List Nat) (min_overlap_count : Nat) : Nat × Nat :=
  let scan := cov.foldl
    (fun (acc : Nat × Nat × Nat × (Nat × Nat) × Nat) x =>
      let (i, cur_len, cur_start, best, best_len) := acc
      if min_overlap_count < x then
        let cur_start := if cur_len = 0 then i else cur_start
        let cur_len := cur_len + 1
        if best_len < cur_len then (i + 1, cur_len, cur_start, (cur_start, i + 1), cur_len)
        else (i + 1, cur_len, cur_start, best, best_len)
      else (i + 1, 0, cur_start, best, best_len))
    (0, 0, 0, (0, 0), 0)
  scan.2.2.2.1

/-- Pass 2 applied to every read. -/
def filterPafPass2 (reads : List Read) (min_overlap_count : Nat) : List Read :=
  reads.map (fun rd =>
    let w := coverageWindow rd.per_base_coverage min_overlap_count
    { rd with coverage_start := w.1, coverage_end := w.2 })

/-! ## transitive_edge_reduction.rs -/

/-- Stable insertion of an edge into a list sorted ascending by edge_len.
The source uses sort_unstable_by_key; no theorem below depends on the order
of edges with equal lengths (the graphs in the concrete computations have
no such ties). -/
def insertByLen (e : EdgeInfo) : List EdgeInfo → List EdgeInfo
  | [] => [e]
  | x :: xs => if e.edge_len ≤ x.edge_len then e :: x :: xs else x :: insertByLen e xs

/-- Sort a list of edges ascending by edge_len. -/
def sortEdgesByLen (l : List EdgeInfo) : List EdgeInfo :=
  l.foldr insertByLen []

/-- Node::sort_edges. -/
def Node.sort_edges (n : Node) : Node := ⟨sortEdgesByLen n.edges⟩

/-- Mark from transitive_edge_reduction.rs. -/
inductive Mark where
  | Vacant
  | InPlay
  | Eliminated
deriving DecidableEq, Repr

/-- The mark map (HashMap<String, Mark>). -/
abbrev MarkMap := List (NodeId × Mark)

/-- mark.insert: set-or-append. -/
def markInsert (m : MarkMap) (id : NodeId) (v : Mark) : MarkMap :=
  if (List.find? (fun p => p.1 = id) m).isSome then
    List.map (fun p => if p.1 = id then (id, v) else p) m
  else m ++ [(id, v)]

/-- mark.get(...).copied(). -/
def markGet (m : MarkMap) (id : NodeId) : Option Mark :=
  (List.find? (fun p => p.1 = id) m).map Prod.snd

/-- The reduced set (HashSet<(String, String)>), with set-semantics insert. -/
def redInsert (s : List (NodeId × NodeId)) (k : NodeId × NodeId) :
    List (NodeId × NodeId) :=
  if s.contains k then s else s ++ [k]

/-- Minimum of a list of Nats (Iterator::min). -/
def listMinNat : List Nat → Option Nat
  | [] => none
  | x :: xs => match listMinNat xs with
    | none => some x
    | some m => some (min x m)

/-- Sort the edges of every node (the initialization loop of
reduce_transitive_edges). -/
def sortAllEdges (g : OverlapGraph) : OverlapGraph :=
  ⟨g.nodes.map (fun p => (p.1, p.2.sort_edges))⟩

/-- The per-n1 body of the main loop of reduce_transitive_edges
(transitive_edge_reduction.rs, lines 93-168), threading the mark map and
the reduced set. -/
def reduceScanNode (g : OverlapGraph) (fuzz : Nat)
    (st : MarkMap × List (NodeId × NodeId)) (n1 : NodeId) :
    MarkMap × List (NodeId × NodeId) :=
  match g.getNode n1 with
  | none => st
  | some node =>
    match node.edges.getLast? with
    | none => st
    | some lastEdge =>
      let out_edges := node.edges
      let m0 := out_edges.foldl (fun m e => markInsert m e.target_id Mark.InPlay) st.1
      let longest : Nat := lastEdge.edge_len + fuzz
      -- step 3: eliminate two-step-reachable in-play neighbours within `longest`
      let m1 := out_edges.foldl (fun m (e : EdgeInfo) =>
        if ¬ markGet m e.target_id = some Mark.InPlay then m
        else match g.getNode e.target_id with
          | none => m
          | some node2 => node2.edges.foldl (fun m e2 =>
              if e2.edge_len + e.edge_len ≤ longest then
                if markGet m e2.target_id = some Mark.InPlay then
                  markInsert m e2.target_id Mark.Eliminated
                else m
              else m) m) m0
      -- step 4: short or minimal second edges eliminate their target
      let m2 := out_edges.foldl (fun m (e : EdgeInfo) =>
        match g.getNode e.target_id with
        | none => m
        | some node2 =>
          let minLen := listMinNat (node2.edges.map (fun e2 => e2.edge_len))
          node2.edges.foldl (fun m e2 =>
            let doElim : Bool :=
              if e2.edge_len < fuzz then true
              else match minLen with
                | some ml => e2.edge_len = ml
                | none => false
            if doElim ∧ markGet m e2.target_id = some Mark.InPlay then
              markInsert m e2.target_id Mark.Eliminated
            else m) m) m1
      -- step 5: stage eliminated direct neighbours, reset marks to vacant
      out_edges.foldl (fun (st : MarkMap × List (NodeId × NodeId)) e =>
        let red := if markGet st.1 e.target_id = some Mark.Eliminated then
            redInsert st.2 (n1, e.target_id)
          else st.2
        (markInsert st.1 e.target_id Mark.Vacant, red)) (m2, st.2)

/-- reduce_transitive_edges (transitive_edge_reduction.rs, lines 73-193). -/
def reduce_transitive_edges (g : OverlapGraph) (fuzz : Nat) : OverlapGraph :=
  let node_keys := g.keys
  let g1 := sortAllEdges g
  let mark0 : MarkMap := node_keys.map (fun k => (k, Mark.Vacant))
  let scan := node_keys.foldl (reduceScanNode g1 fuzz) (mark0, [])
  let reduced := scan.2
  -- collect (edge, rc-twin) pairs for every present edge in the reduced set
  let edges_to_remove : List (NodeId × NodeId) :=
    g1.nodes.foldl (fun acc p =>
      p.2.edges.foldl (fun acc e =>
        if reduced.contains (p.1, e.target_id) then
          acc ++ [(p.1, e.target_id), (rc_node e.target_id, rc_node p.1)]
        else acc) acc) []
  edges_to_remove.foldl (fun g pr => g.removeEdge pr.1 pr.2) g1

/-! ## heuristic_simplification.rs: remove_short_edges -/

/-- Maximum of a list of Nats (Iterator::max). -/
def listMaxNat : List Nat → Option Nat
  | [] => none
  | x :: xs => match listMaxNat xs with
    | none => some x
    | some m => some (max x m)

/-- `as u32` cast of a nonnegative f64 value: truncation toward zero with
saturation. -/
def u32SatOfRatFloor (q : Frac) : Nat :=
  if q < 0 then 0 else min q.floor.toNat (2 ^ 32 - 1)

/-- The body of the per-node loop of remove_short_edges
(heuristic_simplification.rs, lines 53-83).  Note the threshold is
`(max_overlap * drop_ratio + 0.499) as u32` (truncation), and the second
removal drops the plain reverse edge `target -> node`, not the
reverse-complement twin. -/
def removeShortStep (dropRat : Frac) (g : OverlapGraph) (node_id : NodeId) :
    OverlapGraph :=
  match g.getNode node_id with
  | none => g
  | some node =>
    if node.edges.length < 2 then g
    else
      let max_overlap := (listMaxNat (node.edges.map (fun e => e.overlap_len))).getD 0
      let threshold := u32SatOfRatFloor (Frac.ofNat max_overlap * dropRat + Frac.mk 499 1000)
      let edges_to_remove :=
        (node.edges.filter (fun e => e.overlap_len < threshold)).map
          (fun e => e.target_id)
      edges_to_remove.foldl (fun g t =>
        match g.getNode node_id with
        | none => g
        | some n =>
          let g := g.setNode node_id (n.remove_edge t)
          g.removeEdge t node_id) g

/-- remove_short_edges (heuristic_simplification.rs, lines 47-87): fold the
per-node body over a snapshot of the node keys. -/
def remove_short_edges (g : OverlapGraph) (dropRat : Frac) : OverlapGraph :=
  g.keys.foldl (removeShortStep dropRat) g

/-! ## bubble_removal.rs -/

/-- PathMetrics from bubble_removal.rs. -/
structure PathMetrics where
  read_count : Nat := 0
  total_overlap_len : Nat := 0
  avg_identity : Frac := 0
deriving DecidableEq, Repr

/-- State of the bounded BFS of bfs_limited. -/
structure BfsState where
  parent : List (NodeId × Option NodeId)
  depth : List (NodeId × Nat)
  metrics : List (NodeId × PathMetrics)
  queue : List NodeId
deriving Repr

/-- Lookup in a NodeId-keyed assoc list. -/
def assocGet {α : Type} (m : List (NodeId × α)) (id : NodeId) : Option α :=
  (m.find? (fun p => p.1 = id)).map Prod.snd

/-- The BFS loop of bfs_limited (bubble_removal.rs, lines 81-113), with
fuel.  Every node is enqueued at most once (guarded by the depth map), so
the number of dequeues is bounded by 1 + the number of edges of the graph;
the caller passes fuel above that bound. -/
def bfsLoop (g : OverlapGraph) (max_depth : Nat) :
    Nat → BfsState → BfsState
  | 0, st => st
  | fuel + 1, st =>
    match st.queue with
    | [] => st
    | cur :: rest =>
      let cur_depth := (assocGet st.depth cur).getD 0
      if max_depth ≤ cur_depth then
        bfsLoop g max_depth fuel { st with queue := rest }
      else
        match g.getNode cur with
        | none => bfsLoop g max_depth fuel { st with queue := rest }
        | some node =>
          let st := node.edges.foldl (fun (st : BfsState) e =>
            if (assocGet st.depth e.target_id).isSome then st
            else
              let prev := (assocGet st.metrics cur).getD {}
              let total := prev.total_overlap_len + e.overlap_len
              let old_weight : Frac := Frac.ofNat total - Frac.ofNat e.overlap_len
              let new_identity : Frac :=
                if (0 : Frac) < old_weight then
                  Frac.div (prev.avg_identity * old_weight
                    + e.identity * Frac.ofNat e.overlap_len) (Frac.ofNat total)
                else e.identity
              { parent := st.parent ++ [(e.target_id, some cur)]
                depth := st.depth ++ [(e.target_id, cur_depth + 1)]
                metrics := st.metrics ++ [(e.target_id,
                  { read_count := prev.read_count + 1
                    total_overlap_len := total
                    avg_identity := new_identity })]
                queue := st.queue ++ [e.target_id] })
            { st with queue := rest }
          bfsLoop g max_depth fuel st

/-- bfs_limited (bubble_removal.rs, lines 55-116). -/
def bfs_limited (g : OverlapGraph) (start : NodeId) (max_depth : Nat) :
    List (NodeId × Option NodeId) × List (NodeId × Nat) × List (NodeId × PathMetrics) :=
  let st0 : BfsState :=
    { parent := [(start, none)]
      depth := [(start, 0)]
      metrics := [(start, { read_count := 1, total_overlap_len := 0, avg_identity := 1 })]
      queue := [start] }
  let fin := bfsLoop g max_depth (g.nodeCount + g.edgeCount + 1) st0
  (fin.parent, fin.depth, fin.metrics)

/-- The parent-following loop of reconstruct_path, with fuel (the parent
map built by bfs_limited is acyclic: each parent was discovered at a
strictly smaller depth, so the walk takes at most one step per map entry). -/
def followParent (parent : List (NodeId × Option NodeId)) :
    Nat → NodeId → List NodeId → List NodeId
  | 0, _, acc => acc
  | fuel + 1, cur, acc =>
    match assocGet parent cur with
    | some (some p) => followParent parent fuel p (acc ++ [p])
    | _ => acc

/-- reconstruct_path (bubble_removal.rs, lines 120-138). -/
def reconstruct_path (parent : List (NodeId × Option NodeId))
    (start target : NodeId) : List NodeId :=
  let path_rev := followParent parent (parent.length + 1) target [target]
  if path_rev.getLast? = some start then path_rev.reverse else []

/-- remove_nodes_rc_aware (bubble_removal.rs, lines 142-163): expand the
set with reverse complements, drop those nodes, purge edges to them;
returns the size of the expanded set. -/
def remove_nodes_rc_aware (g : OverlapGraph) (to_remove : List NodeId) :
    OverlapGraph × Nat :=
  let expanded := to_remove.foldl (fun acc id =>
    let acc := if acc.contains id then acc else acc ++ [id]
    let r := rc_node id
    if acc.contains r then acc else acc ++ [r]) []
  let g1 : OverlapGraph := ⟨g.nodes.filter (fun p => ¬ expanded.contains p.1)⟩
  let g2 : OverlapGraph := ⟨g1.nodes.map (fun p =>
    (p.1, ⟨p.2.edges.filter (fun e => ¬ expanded.contains e.target_id)⟩))⟩
  (g2, expanded.length)

/-- Stable insertion by combined depth for the meetings list. -/
def insertByDepth (x : NodeId × Nat) : List (NodeId × Nat) → List (NodeId × Nat)
  | [] => [x]
  | y :: ys => if x.2 ≤ y.2 then x :: y :: ys else y :: insertByDepth x ys

/-- sort_unstable_by_key on combined depth; the source order of ties is
unspecified, and no computation below ever has tied meeting depths. -/
def sortByDepth (l : List (NodeId × Nat)) : List (NodeId × Nat) :=
  l.foldr insertByDepth []

/-- The body of one (i, j) neighbour pair of remove_bubbles
(bubble_removal.rs, lines 201-302).  Returns the updated graph, the updated
removal count, and whether a deletion happened (which breaks the inner j
loop in the source). -/
def processPair (maxBubble : Nat) (supportRat : Frac) (u : NodeId)
    (g : OverlapGraph) (total : Nat) (start_a start_b : NodeId) :
    OverlapGraph × Nat × Bool :=
  if start_a = start_b then (g, total, false)
  else
    let bfa := bfs_limited g start_a maxBubble
    let bfb := bfs_limited g start_b maxBubble
    let parent_a := bfa.1
    let depth_a := bfa.2.1
    let score_a_map := bfa.2.2
    let parent_b := bfb.1
    let depth_b := bfb.2.1
    let score_b_map := bfb.2.2
    let usizeMax : Nat := 2 ^ 64 - 1
    let meetings := sortByDepth ((depth_a.filter
      (fun p => (assocGet depth_b p.1).isSome)).map (fun p =>
        (p.1, (assocGet depth_a p.1).getD usizeMax + (assocGet depth_b p.1).getD usizeMax)))
    match meetings with
    | [] => (g, total, false)
    | (meet_node, _) :: _ =>
      let path_a := reconstruct_path parent_a start_a meet_node
      let path_b := reconstruct_path parent_b start_b meet_node
      if path_a = [] ∨ path_b = [] then (g, total, false)
      else
        let metrics_a := (assocGet score_a_map meet_node).getD {}
        let metrics_b := (assocGet score_b_map meet_node).getD {}
        let da := (assocGet depth_a meet_node).getD usizeMax
        let db := (assocGet depth_b meet_node).getD usizeMax
        let score_a : Frac := Frac.ofNat metrics_a.total_overlap_len * 1
          + metrics_a.avg_identity * 2 * 100 + Frac.ofNat metrics_a.read_count * Frac.mk 3 2
        let score_b : Frac := Frac.ofNat metrics_b.total_overlap_len * 1
          + metrics_b.avg_identity * 2 * 100 + Frac.ofNat metrics_b.read_count * Frac.mk 3 2
        if score_a.eqv 0 ∧ score_b.eqv 0 then (g, total, false)
        else
          let pick : Option (List NodeId × Frac) :=
            if score_b < score_a ∨ (score_a.eqv score_b ∧ da < db) then
              some (path_b, score_a)
            else if score_a < score_b ∨ (score_a.eqv score_b ∧ db < da) then
              some (path_a, score_b)
            else none
          match pick with
          | none => (g, total, false)
          | some (loser_path, winner_score) =>
            let loser_score := if score_b < score_a then score_b else score_a
            if winner_score < loser_score * supportRat then (g, total, false)
            else
              let to_remove := (loser_path.takeWhile (fun n => ¬ n = meet_node)).filter
                (fun n => ¬ n = u)
              if to_remove = [] then (g, total, false)
              else
                let res := remove_nodes_rc_aware g to_remove
                (res.1, total + res.2, true)

/-- The inner j loop of remove_bubbles for a fixed i: iterate j from i+1
upward, stopping early after a deletion (the `break` at the end of the
loop body). -/
def bubbleJLoop (maxBubble : Nat) (supportRat : Frac) (u : NodeId)
    (outs : List NodeId) (i : Nat) :
    Nat → Nat → OverlapGraph → Nat → OverlapGraph × Nat
  | 0, _, g, total => (g, total)
  | fuel + 1, j, g, total =>
    match outs.get? i, outs.get? j with
    | some sa, some sb =>
        let res := processPair maxBubble supportRat u g total sa sb
        if res.2.2 then (res.1, res.2.1)
        else bubbleJLoop maxBubble supportRat u outs i fuel (j + 1) res.1 res.2.1
    | _, _ => (g, total)

/-- The per-u body of remove_bubbles (bubble_removal.rs, lines 188-305):
snapshot the outgoing neighbours, and run the pair loops.  The i loop is
not exited by a deletion; only the j loop is. -/
def bubbleNodeStep (maxBubble : Nat) (supportRat : Frac)
    (st : OverlapGraph × Nat) (u : NodeId) : OverlapGraph × Nat :=
  match st.1.getNode u with
  | none => st
  | some n =>
    let outs := n.edges.map (fun e => e.target_id)
    if outs.length < 2 then st
    else
      (List.range outs.length).foldl (fun (st : OverlapGraph × Nat) i =>
        bubbleJLoop maxBubble supportRat u outs i outs.length (i + 1) st.1 st.2) st

/-- remove_bubbles (bubble_removal.rs, lines 174-308). -/
def remove_bubbles (g : OverlapGraph) (max_bubble_len : Nat)
    (supportRat : Frac) : OverlapGraph × Nat :=
  if max_bubble_len = 0 then (g, 0)
  else g.keys.foldl (bubbleNodeStep max_bubble_len supportRat) (g, 0)

/-! ## tip_trimming.rs -/

/-- Generalized assoc-list get for pair keys (edge multiplicities). -/
def assocGetPair {α : Type} (m : List ((NodeId × NodeId) × α)) (k : NodeId × NodeId) :
    Option α :=
  (m.find? (fun p => p.1 = k)).map Prod.snd

/-- Set-or-insert in a NodeId-keyed assoc list. -/
def assocSet {α : Type} (m : List (NodeId × α)) (k : NodeId) (v : α) :
    List (NodeId × α) :=
  if (m.find? (fun p => p.1 = k)).isSome then
    m.map (fun p => if p.1 = k then (k, v) else p)
  else m ++ [(k, v)]

/-- `*entry(k).or_default() += 1` for a NodeId-keyed counter. -/
def assocIncr (m : List (NodeId × Nat)) (k : NodeId) : List (NodeId × Nat) :=
  match assocGet m k with
  | some v => assocSet m k (v + 1)
  | none => m ++ [(k, 1)]

/-- `*entry(k).or_default() += 1` for a pair-keyed counter. -/
def assocIncrPair (m : List ((NodeId × NodeId) × Nat)) (k : NodeId × NodeId) :
    List ((NodeId × NodeId) × Nat) :=
  match assocGetPair m k with
  | some v =>
      m.map (fun p => if p.1 = k then (k, v + 1) else p)
  | none => m ++ [(k, 1)]

/-- `entry(k).or_default().push(v)` for the predecessor lists. -/
def assocPush (m : List (NodeId × List NodeId)) (k : NodeId) (v : NodeId) :
    List (NodeId × List NodeId) :=
  match assocGet m k with
  | some l => assocSet m k (l ++ [v])
  | none => m ++ [(k, [v])]

/-- Degree/multiplicity/predecessor statistics of recompute_stats
(tip_trimming.rs, lines 8-40). -/
structure TipStats where
  indeg : List (NodeId × Nat)
  outdeg : List (NodeId × Nat)
  edge_mult : List ((NodeId × NodeId) × Nat)
  preds : List (NodeId × List NodeId)
deriving Repr

/-- recompute_stats (tip_trimming.rs, lines 8-40). -/
def recompute_stats (g : OverlapGraph) : TipStats :=
  let init : TipStats :=
    { indeg := g.keys.map (fun k => (k, 0))
      outdeg := g.keys.map (fun k => (k, 0))
      edge_mult := []
      preds := g.keys.map (fun k => (k, [])) }
  g.nodes.foldl (fun st p =>
    let st := { st with outdeg := assocSet st.outdeg p.1 p.2.edges.length }
    p.2.edges.foldl (fun st e =>
      { st with
          indeg := assocIncr st.indeg e.target_id
          edge_mult := assocIncrPair st.edge_mult (p.1, e.target_id)
          preds := assocPush st.preds e.target_id p.1 }) st) init

/-- remove_nodes (tip_trimming.rs, lines 43-52): drop the given nodes and
purge edges pointing to them.  Note this helper is NOT reverse-complement
aware: it removes exactly the given set. -/
def remove_nodes (g : OverlapGraph) (to_remove : List NodeId) : OverlapGraph :=
  let g1 : OverlapGraph := ⟨g.nodes.filter (fun p => ¬ to_remove.contains p.1)⟩
  ⟨g1.nodes.map (fun p =>
    (p.1, ⟨p.2.edges.filter (fun e => ¬ to_remove.contains e.target_id)⟩))⟩

/-- TipInfo from trim_tips. -/
structure TipInfo where
  tip_node : NodeId
  is_tail : Bool
  chain : List NodeId
  junction : NodeId
  junction_arc_mult : Nat
deriving DecidableEq, Repr

/-- The backward walk of a tail tip (trim_tips, lines 114-134): up to
max_tip_nodes - 1 steps through unique, non-branching predecessors. -/
def tipWalkBack (st : TipStats) : Nat → NodeId → List NodeId → List NodeId
  | 0, _, chain => chain
  | k + 1, cur, chain =>
    match (assocGet st.preds cur).getD [] with
    | [p] =>
      if (assocGet st.outdeg p).getD 0 = 1 ∧ (assocGet st.indeg p).getD 0 = 1 then
        tipWalkBack st k p (chain ++ [p])
      else chain
    | _ => chain

/-- The forward walk of a head tip (trim_tips, lines 168-187): up to
max_tip_nodes - 1 steps through unique, non-branching successors. -/
def tipWalkFwd (g : OverlapGraph) (st : TipStats) :
    Nat → NodeId → List NodeId → List NodeId
  | 0, _, chain => chain
  | k + 1, cur, chain =>
    match (g.getNode cur).map (fun n => n.edges.map (fun e => e.target_id)) with
    | some [s] =>
      if (assocGet st.outdeg s).getD 0 = 1 ∧ (assocGet st.indeg s).getD 0 = 1 then
        tipWalkFwd g st k s (chain ++ [s])
      else chain
    | _ => chain

/-- Build the TipInfo candidate for one tip candidate (trim_tips, lines
105-211); none when the junction cannot be identified or the chain is too
long. -/
def buildTipInfo (g : OverlapGraph) (st : TipStats) (max_tip_nodes : Nat)
    (tip_node : NodeId) (is_tail : Bool) : Option TipInfo :=
  if is_tail then
    let chain := tipWalkBack st (max_tip_nodes - 1) tip_node [tip_node]
    match chain.getLast? with
    | none => none
    | some last =>
      match (assocGet st.preds last).getD [] with
      | [junction] =>
        let neighbor_on_chain := last
        let arc_mult := (assocGetPair st.edge_mult (junction, neighbor_on_chain)).getD 0
        if chain.length ≤ max_tip_nodes then
          some { tip_node := tip_node, is_tail := true, chain := chain,
                 junction := junction, junction_arc_mult := arc_mult }
        else none
      | _ => none
  else
    let chain := tipWalkFwd g st (max_tip_nodes - 1) tip_node [tip_node]
    match chain.getLast? with
    | none => none
    | some last =>
      match (g.getNode last).map (fun n => n.edges.map (fun e => e.target_id)) with
      | some [junction] =>
        let arc_mult := (assocGetPair st.edge_mult (last, junction)).getD 0
        if chain.length ≤ max_tip_nodes then
          some { tip_node := tip_node, is_tail := false, chain := chain,
                 junction := junction, junction_arc_mult := arc_mult }
        else none
      | _ => none

/-- The minority/eligibility test of trim_tips (lines 224-280). -/
def tipEligible (g : OverlapGraph) (st : TipStats) (info : TipInfo) : Bool :=
  let outgoing : List (NodeId × Nat) :=
    ((g.getNode info.junction).map (fun n => n.edges.map (fun e =>
      (e.target_id, (assocGetPair st.edge_mult (info.junction, e.target_id)).getD 0)))).getD []
  if outgoing = [] then false
  else
    match g.getNode info.junction, info.chain.getLast? with
    | some jn, some neighbor_on_chain =>
      let junction_arc_len :=
        ((jn.edges.find? (fun e => e.target_id = neighbor_on_chain)).map
          (fun e => e.edge_len)).getD 0
      let other_lens := (jn.edges.filter
        (fun e => ¬ e.target_id = neighbor_on_chain)).map (fun e => e.edge_len)
      let ratioHit : Bool :=
        if ¬ other_lens = [] ∧ 0 < junction_arc_len then
          let max_other := (listMaxNat other_lens).getD 0
          decide (Frac.ofNat junction_arc_len < Frac.ofNat max_other * Frac.mk 19 20)
        else false
      if ratioHit then true
      else outgoing.any (fun p => info.junction_arc_mult < p.2)
    | _, _ => false

/-- Stable insertion by junction_arc_mult (Vec::sort_by_key is stable). -/
def insertStableByMult (acc : List TipInfo) (x : TipInfo) : List TipInfo :=
  match acc with
  | [] => [x]
  | y :: ys =>
    if y.junction_arc_mult ≤ x.junction_arc_mult then y :: insertStableByMult ys x
    else x :: y :: ys

/-- One iteration of the main loop of trim_tips (lines 68-358).  Returns
the updated graph and the number of nodes removed this round; a zero count
corresponds to one of the `break`s (the graph is returned unchanged then). -/
def trimRound (g : OverlapGraph) (max_tip_nodes : Nat) : OverlapGraph × Nat :=
  let st := recompute_stats g
  let tip_candidates : List (NodeId × Bool) :=
    g.keys.foldl (fun acc id =>
      if (assocGet st.outdeg id).getD 0 = 0 then acc ++ [(id, true)]
      else if (assocGet st.indeg id).getD 0 = 0 then acc ++ [(id, false)]
      else acc) []
  if tip_candidates = [] then (g, 0)
  else
    let candidates_info := tip_candidates.foldl (fun acc p =>
      match buildTipInfo g st max_tip_nodes p.1 p.2 with
      | some info => acc ++ [info]
      | none => acc) []
    if candidates_info = [] then (g, 0)
    else
      let eligible := candidates_info.filter (tipEligible g st)
      if eligible = [] then (g, 0)
      else
        let sorted := eligible.foldl insertStableByMult []
        -- collection: the graph is not mutated during this loop, so the
        -- sanity re-checks consult the same graph for every candidate
        let removed_in_round : List NodeId := sorted.foldl (fun removed info =>
          if ¬ info.chain.all (fun n => g.hasNode n) then removed
          else
            let stillTip : Bool :=
              if info.is_tail then
                ((g.getNode info.tip_node).map (fun n => n.edges.length)).getD 0 = 0
              else
                (g.nodes.foldl (fun c p =>
                  c + (p.2.edges.filter (fun e => e.target_id = info.tip_node)).length) 0) = 0
            if ¬ stillTip then removed
            else info.chain.foldl (fun rm n =>
              if rm.contains n then rm else rm ++ [n]) removed) []
        if removed_in_round = [] then (g, 0)
        else (remove_nodes g removed_in_round, removed_in_round.length)

/-- The main loop of trim_tips with fuel: every non-final round removes at
least one node (the batch is a nonempty set of present nodes), so
nodeCount + 1 rounds suffice. -/
def trimTipsLoop (max_tip_nodes : Nat) : Nat → OverlapGraph → Nat → OverlapGraph × Nat
  | 0, g, total => (g, total)
  | fuel + 1, g, total =>
    let r := trimRound g max_tip_nodes
    if r.2 = 0 then (r.1, total)
    else trimTipsLoop max_tip_nodes fuel r.1 (total + r.2)

/-- trim_tips (tip_trimming.rs, lines 54-361). -/
def trim_tips (g : OverlapGraph) (max_tip_nodes : Nat) : OverlapGraph × Nat :=
  if max_tip_nodes = 0 then (g, 0)
  else trimTipsLoop max_tip_nodes (g.nodeCount + 1) g 0

/-! ## graph_analysis.rs: weakly connected components -/

/-- State of the component DFS. -/
structure WccState where
  visited : List NodeId
  component : List NodeId
  stack : List NodeId
deriving Repr

/-- The DFS stack loop of weakly_connected_components (graph_analysis.rs,
lines 41-51), with fuel: each push marks a fresh node visited, so the
number of pops is bounded by the adjacency size; the caller passes fuel
above that bound. -/
def wccDfs (adj : List (NodeId × List NodeId)) :
    Nat → WccState → WccState
  | 0, st => st
  | fuel + 1, st =>
    match st.stack with
    | [] => st
    | current :: rest =>
      let st := { st with stack := rest, component := st.component ++ [current] }
      let st := ((assocGet adj current).getD []).foldl (fun (st : WccState) nb =>
        if st.visited.contains nb then st
        else { st with visited := st.visited ++ [nb], stack := nb :: st.stack }) st
      wccDfs adj fuel st

/-- weakly_connected_components (graph_analysis.rs, lines 4-57).  The
adjacency map gains entries for edge targets even when those are not graph
nodes, exactly as entry().or_default() does in the source. -/
def weakly_connected_components (g : OverlapGraph) : List (List NodeId) :=
  let adj0 : List (NodeId × List NodeId) := g.keys.map (fun k => (k, []))
  let adj := g.nodes.foldl (fun adj p =>
    p.2.edges.foldl (fun adj e =>
      assocPush (assocPush adj p.1 e.target_id) e.target_id p.1) adj) adj0
  let scan := adj.foldl (fun (acc : List NodeId × List (List NodeId)) p =>
    let (visited, components) := acc
    if visited.contains p.1 then acc
    else
      let st0 : WccState := { visited := visited ++ [p.1], component := [], stack := [p.1] }
      let fin := wccDfs adj (adj.length + 1) st0
      (fin.visited, components ++ [fin.component])) ([], [])
  scan.2

/-! ## main.rs: the iterative cleanup driver (lines 71-148) -/

/-- The small-component removal step inlined in main.rs (lines 96-117):
drop every node of a weakly connected component of size < 4, together with
the opposite-orientation node of the same read.  Edges pointing at removed
nodes are NOT purged here (the source removes only the node entries). -/
def removeSmallComponents (g : OverlapGraph) : OverlapGraph :=
  let comps := weakly_connected_components g
  let to_remove : List NodeId := comps.foldl (fun acc c =>
    if c.length < 4 then
      c.foldl (fun acc id => if acc.contains id then acc else acc ++ [id]) acc
    else acc) []
  to_remove.foldl (fun (g : OverlapGraph) id =>
    let g : OverlapGraph := ⟨g.nodes.filter (fun p => ¬ p.1 = id)⟩
    if id.sign = '+' then
      ⟨g.nodes.filter (fun p => ¬ p.1 = NodeId.mk id.name '-')⟩
    else if id.sign = '-' then
      ⟨g.nodes.filter (fun p => ¬ p.1 = NodeId.mk id.name '+')⟩
    else g) g

/-- One pass of the cleanup loop body of main.rs (lines 85-124), with the
constants of main.rs: fuzz = 10, max_bubble_len = 8, min_support_ratio =
1.1, component threshold 4, max_tip_len = 4.  The statistics calls in the
body (tip_length_distribution, analyze_degrees) do not mutate the graph
and are omitted. -/
def cleanupPass (g : OverlapGraph) : OverlapGraph :=
  let g := reduce_transitive_edges g 10
  let g := (remove_bubbles g 8 (Frac.mk 11 10)).1
  let g := removeSmallComponents g
  (trim_tips g 4).1

/-- The while loop of main.rs lines 81-146 for an arbitrary pass body:
`while nodeCount < prev { prev := nodeCount; body; count += 1 }`.
Returns the final graph and the number of executed passes.  The fuel
argument dominates `prev`, which strictly decreases across iterations, so
any fuel at least the initial prev makes the model exact. -/
def cleanupLoopFuel (f : OverlapGraph → OverlapGraph) :
    Nat → OverlapGraph → Nat → OverlapGraph × Nat
  | 0, g, _ => (g, 0)
  | fuel + 1, g, prev =>
    if g.nodeCount < prev then
      let r := cleanupLoopFuel f fuel (f g) g.nodeCount
      (r.1, r.2 + 1)
    else (g, 0)

/-- The iterative cleanup driver of main.rs (lines 78-148): prev starts at
nodeCount + 1 so the first pass always runs; the loop stops as soon as a
pass fails to strictly decrease the node count. -/
def cleanupDriver (g : OverlapGraph) : OverlapGraph × Nat :=
  cleanupLoopFuel cleanupPass (g.nodeCount + 1) g (g.nodeCount + 1)

/-! ## compress_graph.rs -/

/-- UnitigMember from compress_graph.rs: the empty-string next-target
sentinel becomes `none` (an oriented node id is never the empty string). -/
structure UnitigMember where
  node_id : NodeId
  edge : Option NodeId × Nat
deriving DecidableEq, Repr

/-- Unitig from compress_graph.rs (the lazy fasta_seq field is dropped;
sequences are produced by unitig_sequence). -/
structure Unitig where
  id : Nat
  members : List UnitigMember
deriving DecidableEq, Repr

/-- The indegree map of compress_unitigs (compress_graph.rs, lines 42-51):
initialized to 0 for the graph nodes, then incremented per edge target
(creating entries for phantom targets, as entry().or_default() does). -/
def compressIndegree (g : OverlapGraph) : List (NodeId × Nat) :=
  g.nodes.foldl (fun m p =>
    p.2.edges.foldl (fun m e => assocIncr m e.target_id) m)
    (g.keys.map (fun k => (k, 0)))

/-- out_single (compress_graph.rs, lines 57-67): the unique outgoing edge,
as (target, edge_len), when the out-degree is exactly 1. -/
def out_single (g : OverlapGraph) (cur : NodeId) : Option (NodeId × Nat) :=
  match g.getNode cur with
  | none => none
  | some n =>
    match n.edges with
    | [e] => some (e.target_id, e.edge_len)
    | _ => none

/-- The chain-extension while loop of Phase A (compress_graph.rs, lines
115-132), with fuel: every iteration marks a previously unvisited node, and
only graph nodes allow a further step, so nodeCount + 2 iterations suffice. -/
def phaseAWalk (g : OverlapGraph) (indeg : List (NodeId × Nat)) :
    Nat → NodeId → List NodeId → List UnitigMember →
    NodeId × List NodeId × List UnitigMember
  | 0, cur, visited, members => (cur, visited, members)
  | fuel + 1, cur, visited, members =>
    match out_single g cur with
    | none => (cur, visited, members)
    | some (next, edge_len) =>
      if ¬ (assocGet indeg next).getD 0 = 1 then (cur, visited, members)
      else if visited.contains next then (cur, visited, members)
      else
        phaseAWalk g indeg fuel next (visited ++ [next])
          (members ++ [{ node_id := cur, edge := (some next, edge_len) }])

/-- The per-out-edge body of Phase A (compress_graph.rs, lines 83-147). -/
def phaseAStartEdge (g : OverlapGraph) (indeg : List (NodeId × Nat))
    (id : NodeId) (node : Node)
    (st : List NodeId × List Unitig) (out_edge_i : Nat) :
    List NodeId × List Unitig :=
  let (visited, unitigs) := st
  let visited := if visited.contains id then visited else visited ++ [id]
  match node.edges.get? out_edge_i with
  | none => (visited, unitigs)
  | some e =>
    let second := e.target_id
    let members : List UnitigMember := [{ node_id := id, edge := (some second, e.edge_len) }]
    if ¬ (assocGet indeg second).getD 0 = 1 then (visited, unitigs)
    else if visited.contains second then (visited, unitigs)
    else
      let visited := visited ++ [second]
      let w := phaseAWalk g indeg (g.nodeCount + 2) second visited members
      let finalMembers := w.2.2 ++ [{ node_id := w.1, edge := (none, 0) }]
      (w.2.1, unitigs ++ [{ id := unitigs.length, members := finalMembers }])

/-- The per-node body of Phase A (compress_graph.rs, lines 70-149): skip
visited nodes, and start one unitig per outgoing edge at every node that is
not a simple internal node. -/
def phaseANodeStep (g : OverlapGraph) (indeg : List (NodeId × Nat))
    (st : List NodeId × List Unitig) (p : NodeId × Node) :
    List NodeId × List Unitig :=
  let indegree_i := (assocGet indeg p.1).getD 0
  let outdeg_i := p.2.edges.length
  if st.1.contains p.1 then st
  else if ¬ indegree_i = 1 ∨ ¬ outdeg_i = 1 then
    (List.range outdeg_i).foldl (phaseAStartEdge g indeg p.1 p.2) st
  else st

/-- Phase A of compress_unitigs (compress_graph.rs, lines 69-149): linear
unitig extraction over the node list, threading the visited set and the
unitig list. -/
def compressPhaseA (g : OverlapGraph) : List NodeId × List Unitig :=
  g.nodes.foldl (phaseANodeStep g (compressIndegree g)) ([], [])

/-- The circular walk of Phase B (compress_graph.rs, lines 161-189), with
fuel: every iteration marks the current node visited and only proceeds to
an unvisited node, so nodeCount + 2 iterations suffice. -/
def phaseBWalk (g : OverlapGraph) (indeg : List (NodeId × Nat)) :
    Nat → NodeId → List NodeId → List UnitigMember → List NodeId × List UnitigMember
  | 0, _, visited, members => (visited, members)
  | fuel + 1, cur, visited, members =>
    let visited := if visited.contains cur then visited else visited ++ [cur]
    match out_single g cur with
    | none => (visited, members)
    | some (next, edge_len) =>
      let members := members ++ [{ node_id := cur, edge := (some next, edge_len) }]
      if ¬ (assocGet indeg next).getD 0 = 1 then (visited, members)
      else if visited.contains next then (visited, members)
      else phaseBWalk g indeg fuel next visited members

/-- Phases A and B of compress_unitigs (compress_graph.rs, lines 37-198);
inter-unitig edges and sequence generation are separate concerns
(unitig_sequence below). -/
def compress_unitigs (g : OverlapGraph) : List Unitig :=
  let indeg := compressIndegree g
  let a := compressPhaseA g
  let fin := g.keys.foldl (fun (st : List NodeId × List Unitig) id =>
    if st.1.contains id then st
    else
      let w := phaseBWalk g indeg (g.nodeCount + 2) id st.1 []
      (w.1, st.2 ++ [{ id := st.2.length, members := w.2 }])) a
  fin.2

/-- Modelled from the spec: utils::rev_comp is called by
compress_graph.rs but is absent from the sources provided (utils.rs holds
only rc_node and delete_nodes_and_edges).  Spec 4.9: "if '−', use its
reverse complement" -- the reverse of the base-wise complement. -/
def complementBase (c : Char) : Char :=
  if c = 'A' then 'T'
  else if c = 'T' then 'A'
  else if c = 'C' then 'G'
  else if c = 'G' then 'C'
  else c

/-- Modelled from the spec: reverse complement of a nucleotide sequence. -/
def rev_comp (s : String) : String :=
  String.mk ((s.data.map complementBase).reverse)

/-- get_seq inside unitig_sequence (compress_graph.rs, lines 339-364):
the node must exist in the graph and the read sequence in the FASTQ map;
orientation '+' keeps the sequence, '-' reverse-complements it, anything
else is an error. -/
def get_seq (g : OverlapGraph) (seqs : List (String × String)) (node_id : NodeId) :
    Except String String :=
  if ¬ (g.hasNode node_id) then Except.error "node not found in overlap graph"
  else
    match (seqs.find? (fun p => p.1 = node_id.name)).map Prod.snd with
    | none => Except.error "sequence for read not found"
    | some seq =>
      if node_id.sign = '+' then Except.ok seq
      else if node_id.sign = '-' then Except.ok (rev_comp seq)
      else Except.error "invalid orientation"

/-- The member loop of unitig_sequence (compress_graph.rs, lines 369-392).
The source's `&seq[..edge_len]` byte slice becomes the char-level prefix
`String.mk (seq.data.take edge_len)`: sequences are ASCII nucleotide
strings, where the two coincide. -/
def unitigSequenceLoop (g : OverlapGraph) (seqs : List (String × String)) :
    List UnitigMember → String → Except String String
  | [], out => Except.ok out
  | member :: rest, out =>
    match get_seq g seqs member.node_id with
    | Except.error e => Except.error e
    | Except.ok seq =>
      match member.edge.1 with
      | none => unitigSequenceLoop g seqs rest (out ++ seq)
      | some _ =>
        if seq.length < member.edge.2 then
          Except.error "edge length larger than seq length"
        else unitigSequenceLoop g seqs rest
          (out ++ String.mk (seq.data.take member.edge.2))

/-- unitig_sequence (compress_graph.rs, lines 329-395). -/
def unitig_sequence (u : Unitig) (g : OverlapGraph)
    (seqs : List (String × String)) : Except String String :=
  unitigSequenceLoop g seqs u.members ""

/-! ## Spec-side coverage accumulation (for the pass-1 refinement claim) -/

/-- The projection of the pass-1 state that the coverage computation can
see: read-name map, reads, and the id counter -- without the alignment
bookkeeping. -/
structure CoverageOnlyState where
  read_name2read_id : List (String × Nat)
  reads : List Read
  next_id : Nat
deriving Repr

/-- Projection of the full pass-1 state onto its coverage-relevant part. -/
def FilterState.covProj (st : FilterState) : CoverageOnlyState :=
  { read_name2read_id := st.read_name2read_id
    reads := st.reads
    next_id := st.next_id }

/-- Get-or-create of a read id, coverage-only side (same construction as
getOrCreateRead without the alignment bookkeeping). -/
def covGetOrCreateRead (st : CoverageOnlyState) (nm : String) (len : Nat)
    (covEnd : Nat) : Nat × CoverageOnlyState :=
  match lookupName st.read_name2read_id nm with
  | some id => (id, st)
  | none =>
      let id := st.next_id
      let newRead : Read :=
        { id := id, name := nm, length := len,
          per_base_coverage := List.replicate len 0,
          coverage_start := 0, coverage_end := covEnd }
      (id, { st with
              next_id := id + 1,
              read_name2read_id := st.read_name2read_id ++ [(nm, id)],
              reads := st.reads ++ [newRead] })

/-- Per-record coverage accumulation as the spec words it: for every record
that passes the self-alignment, span-length and identity filters, increment
per-base coverage on the query interval [qs,qe) and the target interval
[ts,te) -- with no reference to the alignment dedup at all. -/
def coverageOnlyStep (min_overlap_length : Nat) (minPid : Frac)
    (st : CoverageOnlyState) (r : PafRec) : CoverageOnlyState :=
  if ¬ passesCrudeFilters r min_overlap_length minPid then st
  else
    let (query_id, st) := covGetOrCreateRead st r.query_name r.query_length r.query_length
    let (target_id, st) := covGetOrCreateRead st r.target_name r.target_length r.query_length
    let qstart := usizeWrapOfInt r.query_start
    let qend := usizeWrapOfInt r.query_end
    let tstart := usizeWrapOfInt r.target_start
    let tend := usizeWrapOfInt r.target_end
    let reads2 := updateReadCoverage
      (updateReadCoverage st.reads query_id qstart qend) target_id tstart tend
    { st with reads := reads2 }

/-- Coverage accumulation over a whole record list, dedup-free. -/
def coverageOnlyPass (records : List PafRec) (min_overlap_length : Nat)
    (minPid : Frac) : CoverageOnlyState :=
  records.foldl (coverageOnlyStep min_overlap_length minPid)
    { read_name2read_id := [], reads := [], next_id := 0 }

/-! ## Concrete graphs used by the counterexample and code-bug theorems.

All of these computations are insensitive to the unspecified HashMap
iteration order of the source: in each round of each pass at most one
candidate acts (or the acting candidates commute), as noted per theorem. -/

/-- C5 example: a reverse-complement-symmetric graph with reads j, x, y;
edges j+ -> x+ (len 1) / x- -> j- (len 1) and j+ -> y+ (len 10) /
y- -> j- (len 10).  The only tip the eligibility test accepts is x+. -/
def tipExampleGraph : OverlapGraph := ⟨[
  (⟨"j", '+'⟩, ⟨[⟨⟨"x", '+'⟩, 1, 1, 1⟩, ⟨⟨"y", '+'⟩, 10, 10, 1⟩]⟩),
  (⟨"j", '-'⟩, ⟨[]⟩),
  (⟨"x", '+'⟩, ⟨[]⟩),
  (⟨"x", '-'⟩, ⟨[⟨⟨"j", '-'⟩, 1, 1, 1⟩]⟩),
  (⟨"y", '+'⟩, ⟨[]⟩),
  (⟨"y", '-'⟩, ⟨[⟨⟨"j", '-'⟩, 10, 10, 1⟩]⟩)]⟩

/-- Edges stored at `u` (empty when the node is absent). -/
def edgesOf (g : OverlapGraph) (u : NodeId) : List EdgeInfo :=
  ((g.getNode u).getD ⟨[]⟩).edges

/-- Bidirected symmetry: every edge u -> v has the RC twin rc(v) -> rc(u)
with equal overlap_len and identity. -/
def edgeSym (g : OverlapGraph) : Prop :=
  ∀ u, ∀ e ∈ edgesOf g u, ∃ e' ∈ edgesOf g (rc_node e.target_id),
    e'.target_id = rc_node u ∧ e'.overlap_len = e.overlap_len
      ∧ e'.identity = e.identity

/-- C9 example: u+ fans out to a+, b+, c+; bubbles (a+, c+) meeting at m+
and (b+, c+) meeting at n+, with the c+ sides strictly stronger.  All
identities are 1 and all scores are small integers, so every f64 branch
decision is exact. -/
def bubbleExampleGraph : OverlapGraph := ⟨[
  (⟨"u", '+'⟩, ⟨[⟨⟨"a", '+'⟩, 5, 5, 1⟩, ⟨⟨"b", '+'⟩, 5, 5, 1⟩, ⟨⟨"c", '+'⟩, 5, 5, 1⟩]⟩),
  (⟨"a", '+'⟩, ⟨[⟨⟨"m", '+'⟩, 5, 50, 1⟩]⟩),
  (⟨"b", '+'⟩, ⟨[⟨⟨"n", '+'⟩, 5, 50, 1⟩]⟩),
  (⟨"c", '+'⟩, ⟨[⟨⟨"m", '+'⟩, 5, 100, 1⟩, ⟨⟨"n", '+'⟩, 5, 100, 1⟩]⟩),
  (⟨"m", '+'⟩, ⟨[]⟩),
  (⟨"n", '+'⟩, ⟨[]⟩)]⟩

/-- C6 example: u+ has edges to v+ (len 100) and w+ (len 150); v+ has
edges to w+ (len 70) and x+ (len 50).  An unrelated gadget x-, m+, v-
makes the first run stage (x-, v-), whose reverse-complement twin is
v+ -> x+; deleting that twin changes the minimum outgoing edge of v+ from
x+ to w+, so the second run's step-4 rule eliminates w+ at u+. -/
def trExampleGraph : OverlapGraph := ⟨[
  (⟨"u", '+'⟩, ⟨[⟨⟨"v", '+'⟩, 100, 0, 1⟩, ⟨⟨"w", '+'⟩, 150, 0, 1⟩]⟩),
  (⟨"v", '+'⟩, ⟨[⟨⟨"w", '+'⟩, 70, 0, 1⟩, ⟨⟨"x", '+'⟩, 50, 0, 1⟩]⟩),
  (⟨"w", '+'⟩, ⟨[]⟩),
  (⟨"x", '+'⟩, ⟨[]⟩),
  (⟨"x", '-'⟩, ⟨[⟨⟨"m", '+'⟩, 20, 0, 1⟩, ⟨⟨"v", '-'⟩, 30, 0, 1⟩]⟩),
  (⟨"m", '+'⟩, ⟨[⟨⟨"v", '-'⟩, 5, 0, 1⟩]⟩),
  (⟨"v", '-'⟩, ⟨[]⟩)]⟩

/-- C4 example A: at u+ the outgoing overlap lengths are 5 and 2 with
drop_ratio 1/2: round(5 * 0.5) = 3 would remove the overlap-2 edge, the
code's trunc(5 * 0.5 + 0.499) = 2 keeps it. -/
def shortEdgeExampleA : OverlapGraph := ⟨[
  (⟨"u", '+'⟩, ⟨[⟨⟨"a", '+'⟩, 1, 5, 1⟩, ⟨⟨"b", '+'⟩, 1, 2, 1⟩]⟩),
  (⟨"a", '+'⟩, ⟨[]⟩), (⟨"b", '+'⟩, ⟨[]⟩),
  (⟨"u", '-'⟩, ⟨[]⟩),
  (⟨"a", '-'⟩, ⟨[⟨⟨"u", '-'⟩, 1, 5, 1⟩]⟩),
  (⟨"b", '-'⟩, ⟨[⟨⟨"u", '-'⟩, 1, 2, 1⟩]⟩)]⟩

/-- C4 example B: overlaps 10 and 2 with drop_ratio 1/2: the edge
u+ -> b+ is removed (2 < trunc(5.499) = 5), but its reverse-complement
twin b- -> u- is untouched (the code removes the plain reverse edge
b+ -> u+, which does not exist). -/
def shortEdgeExampleB : OverlapGraph := ⟨[
  (⟨"u", '+'⟩, ⟨[⟨⟨"a", '+'⟩, 1, 10, 1⟩, ⟨⟨"b", '+'⟩, 1, 2, 1⟩]⟩),
  (⟨"a", '+'⟩, ⟨[]⟩), (⟨"b", '+'⟩, ⟨[]⟩),
  (⟨"u", '-'⟩, ⟨[]⟩),
  (⟨"a", '-'⟩, ⟨[⟨⟨"u", '-'⟩, 1, 10, 1⟩]⟩),
  (⟨"b", '-'⟩, ⟨[⟨⟨"u", '-'⟩, 1, 2, 1⟩]⟩)]⟩


/-- Per-node edge lists have pairwise-distinct targets.  Holds for every
graph built by create_overlap_graph (Node::add_edge refuses duplicate
targets) and is preserved by the removal operations. -/
abbrev targetsNodup (g : OverlapGraph) : Prop :=
  ∀ p ∈ g.nodes, ((p.2.edges.map (fun e => e.target_id)).Nodup)

/-- The node stored at u+ in shortEdgeExampleB. -/
def shortEdgeExampleBNode : Node := ⟨[⟨⟨"a", '+'⟩, 1, 10, 1⟩, ⟨⟨"b", '+'⟩, 1, 2, 1⟩]⟩

/-- C7 example: a two-member unitig a+ -> b+ with edge_len 2. -/
def unitigExampleGraph : OverlapGraph := ⟨[
  (⟨"a", '+'⟩, ⟨[⟨⟨"b", '+'⟩, 2, 2, 1⟩]⟩),
  (⟨"b", '+'⟩, ⟨[]⟩)]⟩

/-- C7 example: the read sequences. -/
def unitigExampleSeqs : List (String × String) := [("a", "ACGT"), ("b", "GTTT")]

/-- C7 example: the unitig (members a+ then b+; last member has the empty
next-target sentinel). -/
def unitigExample : Unitig :=
  ⟨0, [⟨⟨"a", '+'⟩, (some ⟨"b", '+'⟩, 2)⟩, ⟨⟨"b", '+'⟩, (none, 0)⟩]⟩

/-- C2 example: a plus-strand proper overlap (query hangs off the left of
the target by 4 bases on both coordinate systems). -/
def classifyExampleRec : PafRec := ⟨"q", 10, 4, 10, '+', "t", 10, 0, 6, 6, 6, 60⟩

/-- C2 example: the Overlap emitted for classifyExampleRec under full
coverage windows, ratio 1 and min_overlap_length 1. -/
def classifyExampleOv : Overlap :=
  ((classify_alignment classifyExampleRec 0 10 0 10 (Frac.mk 1 1) 1).2).getD
    ⟨⟨"", '+'⟩, ⟨"", '+'⟩, ⟨"", '+'⟩, ⟨"", '+'⟩, 0, 0, 0, 0, 0, 0⟩

/-- C8 example: one isolated node (also arises as any out-degree-0 node). -/
def phaseAExampleGraph : OverlapGraph := ⟨[(⟨"u", '+'⟩, ⟨[]⟩)]⟩

/-- C3 example: two isolated oriented nodes of one read; the first cleanup
pass removes them as a small component, the second pass changes nothing. -/
def driverExampleGraph : OverlapGraph := ⟨[(⟨"u", '+'⟩, ⟨[]⟩), (⟨"u", '-'⟩, ⟨[]⟩)]⟩

/-- check_synchronization (transitive_edge_reduction.rs, lines 34-68) as a
boolean: true iff every node's reverse complement exists and every edge
u -> v has the twin rc(v) -> rc(u) (the source asserts these and panics on
failure). -/
def check_synchronization (g : OverlapGraph) : Bool :=
  g.nodes.all (fun p =>
    g.hasNode (rc_node p.1)
    ∧ p.2.edges.all (fun e =>
        match g.getNode (rc_node e.target_id) with
        | some rcn => rcn.edges.any (fun e2 => e2.target_id = rc_node p.1)
        | none => false))

/-!
# Theorems
-/

/-- Claim C3, counterexample.  The cleanup driver of main.rs does not run a
fixed, tunable number of passes: on the empty graph it executes exactly one
pass, on a graph of two isolated oriented nodes exactly two -- the pass
count is determined by a convergence check on the node count, and no
constant `cleanup_iterations` (default 2) matches both inputs.  (Both runs
are insensitive to hash iteration order: the passes touch disjoint
single-node components or nothing at all.) -/
theorem cleanup_driver_pass_count_varies :
    (cleanupDriver (⟨[]⟩ : OverlapGraph)).2 = 1
    ∧ (cleanupDriver driverExampleGraph).2 = 2 := by decide

/-- Claim C4, counterexample.  Part A: with drop_ratio = 1/2 and a maximum
outgoing overlap of 5, the claimed threshold round(5/2) = 3 would remove
the overlap-2 edge u+ -> b+, but the pass keeps it (the code truncates
5/2 + 0.499 to 2).  Part B: when an edge u+ -> b+ is removed, its
reverse-complement twin b- -> u- is NOT removed (the code removes the
plain reverse edge b+ -> u+ instead, which does not exist here).  The
constants are exactly representable in f64, and each node of the examples
is processed independently, so hash iteration order is immaterial. -/
theorem remove_short_edges_claim_counterexample :
    (remove_short_edges shortEdgeExampleA (Frac.mk 1 2)).edgePresent ⟨"u", '+'⟩ ⟨"b", '+'⟩ = true
    ∧ (2 : Nat) < 3
    ∧ (remove_short_edges shortEdgeExampleB (Frac.mk 1 2)).edgePresent ⟨"u", '+'⟩ ⟨"b", '+'⟩ = false
    ∧ (remove_short_edges shortEdgeExampleB (Frac.mk 1 2)).edgePresent ⟨"b", '-'⟩ ⟨"u", '-'⟩ = true := by decide

/-- Claim C5.  trim_tips deletes nodes without their reverse complements:
on a synchronization-clean symmetric graph it removes the tip x+ but keeps
x- (whose eligibility test fails because its junction j- has no outgoing
edges), leaving a graph that fails check_synchronization -- the very
assertion main.rs runs after the cleanup loop.  Order-insensitivity: in
round one x+ is the only eligible candidate and in round two there is
none, so the candidate iteration order cannot change the batch. -/
theorem trim_tips_not_rc_aware :
    check_synchronization tipExampleGraph = true
    ∧ (trim_tips tipExampleGraph 4).1.hasNode ⟨"x", '-'⟩ = true
    ∧ (trim_tips tipExampleGraph 4).1.hasNode ⟨"x", '+'⟩ = false
    ∧ check_synchronization (trim_tips tipExampleGraph 4).1 = false := by decide

/-- Claim C6, counterexample.  Transitive reduction is not idempotent: the
first run on trExampleGraph stages (x-, v-) and deletes its
reverse-complement twin v+ -> x+ as well, which changes the minimum
outgoing edge of v+; the second run's minimum-edge rule (step 4) then
eliminates w+ at u+, so the second run removes the surviving edge
u+ -> w+.  No tie-breaks arise (all edge lengths are distinct per node),
so the unstable sort and hash order are immaterial. -/
theorem reduce_transitive_edges_not_idempotent :
    (reduce_transitive_edges trExampleGraph 10).edgePresent ⟨"u", '+'⟩ ⟨"w", '+'⟩ = true
    ∧ (reduce_transitive_edges (reduce_transitive_edges trExampleGraph 10) 10).edgePresent
        ⟨"u", '+'⟩ ⟨"w", '+'⟩ = false
    ∧ (reduce_transitive_edges (reduce_transitive_edges trExampleGraph 10) 10).edgeCount
        < (reduce_transitive_edges trExampleGraph 10).edgeCount := by decide

/-- Claim C8, counterexample.  After Phase A of compress_unitigs, the
isolated node u+ (in-degree 0, out-degree 0) remains unvisited, refuting
"every unvisited node has in-degree = 1 and out-degree = 1 and lies on a
cycle": Phase A only marks nodes while walking out-edges, so an
out-degree-0 starting node is never visited. -/
theorem phaseA_unvisited_counterexample :
    phaseAExampleGraph.hasNode ⟨"u", '+'⟩ = true
    ∧ (compressPhaseA phaseAExampleGraph).1.contains ⟨"u", '+'⟩ = false
    ∧ ((phaseAExampleGraph.getNode ⟨"u", '+'⟩).getD ⟨[]⟩).edges.length = 0 := by decide

/-- Claim C9.  After the deletion triggered by the pair (a+, c+) of the
divergence node u+, the pair loop is NOT exited: the source's `break` only
leaves the inner j loop, so the pair (b+, c+) is still examined and
triggers a second deletion for the same u+ -- both a+ and b+ are gone and
four oriented nodes are counted removed.  Under the claimed behaviour (and
the comment in the source) b+ would survive.  All scores are small exact
integers and every meeting node is unique, so float rounding, sort
instability and hash order are immaterial. -/
theorem remove_bubbles_continues_pairs_after_deletion :
    (remove_bubbles bubbleExampleGraph 8 1).1.hasNode ⟨"a", '+'⟩ = false
    ∧ (remove_bubbles bubbleExampleGraph 8 1).1.hasNode ⟨"b", '+'⟩ = false
    ∧ (remove_bubbles bubbleExampleGraph 8 1).2 = 4 := by decide

/-! ### Shared structural lemmas about graph mutation -/


theorem mem_swapRemove {l : List EdgeInfo} {i : Nat} {x : EdgeInfo}
    (h : x ∈ l.swapRemove i) : x ∈ l := by
  unfold List.swapRemove at h
  cases hl : l.getLast? with
  | none => rw [hl] at h; exact h
  | some last =>
    rw [hl] at h
    replace h : x ∈ (if i + 1 = l.length then l.dropLast else l.dropLast.set i last) := h
    by_cases hi : i + 1 = l.length
    · rw [if_pos hi] at h
      exact List.dropLast_subset l h
    · rw [if_neg hi] at h
      rcases List.mem_or_eq_of_mem_set h with h' | h'
      · exact List.dropLast_subset l h'
      · subst h'; exact List.mem_of_mem_getLast? hl

theorem getNode_setNode (g : OverlapGraph) (a : NodeId) (n' : Node) (u : NodeId) :
    (g.setNode a n').getNode u =
      if u = a then (g.getNode a).map (fun _ => n') else g.getNode u := by
  rcases g with ⟨l⟩
  induction l with
  | nil =>
    show (Option.map _ (List.find? _ [])) = _
    simp only [List.find?_nil, Option.map_none']
    split <;> rfl
  | cons p t ih =>
    show (Option.map Prod.snd (List.find? (fun q => q.1 = u)
      ((if p.1 = a then (p.1, n') else p) :: List.map _ t))) = _
    rw [List.find?_cons]
    have hfp1 : (if p.1 = a then (p.1, n') else p).1 = p.1 := by split <;> rfl
    by_cases hpu : p.1 = u
    · rw [show (decide ((if p.1 = a then (p.1, n') else p).1 = u)) = true by
        rw [hfp1]; exact decide_eq_true hpu]
      by_cases hpa : p.1 = a
      · have hua : u = a := by rw [← hpu, hpa]
        have : (OverlapGraph.getNode ⟨p :: t⟩ a) = some p.2 := by
          show Option.map _ (List.find? _ _) = _
          rw [List.find?_cons, show (decide (p.1 = a)) = true from decide_eq_true hpa]
          rfl
        rw [if_pos hua, this]
        simp [hpa]
      · have hua : ¬ u = a := fun h => hpa (by rw [hpu, h])
        rw [if_neg hua]
        have : (OverlapGraph.getNode ⟨p :: t⟩ u) = some p.2 := by
          show Option.map _ (List.find? _ _) = _
          rw [List.find?_cons, show (decide (p.1 = u)) = true from decide_eq_true hpu]
          rfl
        rw [this, if_neg hpa]
        rfl
    · rw [show (decide ((if p.1 = a then (p.1, n') else p).1 = u)) = false by
        rw [hfp1]; exact decide_eq_false hpu]
      by_cases hpa : p.1 = a
      · have hua : ¬ u = a := fun h => hpu (by rw [h, hpa])
        rw [if_neg hua] at ih ⊢
        have : (OverlapGraph.getNode ⟨p :: t⟩ u) = OverlapGraph.getNode ⟨t⟩ u := by
          show Option.map _ (List.find? _ _) = _
          rw [List.find?_cons, show (decide (p.1 = u)) = false from decide_eq_false hpu]
          rfl
        rw [this]
        exact ih
      · have hget : (OverlapGraph.getNode ⟨p :: t⟩ u) = OverlapGraph.getNode ⟨t⟩ u := by
          show Option.map _ (List.find? _ _) = _
          rw [List.find?_cons, show (decide (p.1 = u)) = false from decide_eq_false hpu]
          rfl
        by_cases hua : u = a
        · rw [if_pos hua] at ih ⊢
          have hgeta : (OverlapGraph.getNode ⟨p :: t⟩ a) = OverlapGraph.getNode ⟨t⟩ a := by
            show Option.map _ (List.find? _ _) = _
            rw [List.find?_cons, show (decide (p.1 = a)) = false from decide_eq_false hpa]
            rfl
          rw [hgeta]
          exact ih
        · rw [if_neg hua] at ih ⊢
          rw [hget]
          exact ih

theorem mem_remove_edge {n : Node} {t : NodeId} {x : EdgeInfo}
    (h : x ∈ (n.remove_edge t).edges) : x ∈ n.edges := by
  unfold Node.remove_edge at h
  cases hf : n.edges.findIdx? (fun e => e.target_id = t) with
  | none => rw [hf] at h; exact h
  | some i => rw [hf] at h; exact mem_swapRemove h

theorem edgePresent_removeEdge {g : OverlapGraph} {a b u v : NodeId}
    (h : (g.removeEdge a b).edgePresent u v = true) : g.edgePresent u v = true := by
  unfold OverlapGraph.removeEdge at h
  cases hga : g.getNode a with
  | none => rw [hga] at h; exact h
  | some n =>
    rw [hga] at h
    unfold OverlapGraph.edgePresent at h ⊢
    rw [getNode_setNode] at h
    by_cases hua : u = a
    · rw [if_pos hua, hga] at h
      simp only [Option.map_some'] at h
      rw [hua, hga]
      rcases List.any_eq_true.mp h with ⟨e, he, hev⟩
      exact List.any_eq_true.mpr ⟨e, mem_remove_edge he, hev⟩
    · rw [if_neg hua] at h
      exact h

theorem keys_setNode (g : OverlapGraph) (a : NodeId) (n' : Node) :
    (g.setNode a n').keys = g.keys := by
  rcases g with ⟨l⟩
  show List.map _ (List.map _ l) = List.map _ l
  rw [List.map_map]
  apply List.map_congr_left
  intro p _
  show (if p.1 = a then (p.1, n') else p).1 = p.1
  split <;> rfl

theorem keys_removeEdge (g : OverlapGraph) (a b : NodeId) :
    (g.removeEdge a b).keys = g.keys := by
  unfold OverlapGraph.removeEdge
  cases hga : g.getNode a with
  | none => rfl
  | some n => exact keys_setNode g a _

theorem edgePresent_removeEdgeFold {l : List (NodeId × NodeId)} :
    ∀ {g : OverlapGraph} {u v : NodeId},
    ((l.foldl (fun g pr => OverlapGraph.removeEdge g pr.1 pr.2) g).edgePresent u v = true) →
      g.edgePresent u v = true := by
  induction l with
  | nil => intro g u v h; exact h
  | cons p t ih => intro g u v h; exact edgePresent_removeEdge (ih h)

theorem keys_removeEdgeFold (l : List (NodeId × NodeId)) :
    ∀ (g : OverlapGraph),
    (l.foldl (fun g pr => OverlapGraph.removeEdge g pr.1 pr.2) g).keys = g.keys := by
  induction l with
  | nil => intro g; rfl
  | cons p t ih => intro g; rw [List.foldl_cons, ih, keys_removeEdge]

theorem getNode_mapNodes (g : OverlapGraph) (f : Node → Node) (u : NodeId) :
    (OverlapGraph.mk (g.nodes.map (fun p => (p.1, f p.2)))).getNode u =
      (g.getNode u).map f := by
  rcases g with ⟨l⟩
  induction l with
  | nil => rfl
  | cons p t ih =>
    show Option.map _ (List.find? _ _) = _
    rw [List.map_cons, List.find?_cons]
    by_cases hpu : p.1 = u
    · rw [show (decide ((p.1, f p.2).1 = u)) = true from decide_eq_true hpu]
      have : (OverlapGraph.getNode ⟨p :: t⟩ u) = some p.2 := by
        show Option.map _ (List.find? _ _) = _
        rw [List.find?_cons, show (decide (p.1 = u)) = true from decide_eq_true hpu]
        rfl
      rw [this]
      rfl
    · rw [show (decide ((p.1, f p.2).1 = u)) = false from decide_eq_false hpu]
      have : (OverlapGraph.getNode ⟨p :: t⟩ u) = OverlapGraph.getNode ⟨t⟩ u := by
        show Option.map _ (List.find? _ _) = _
        rw [List.find?_cons, show (decide (p.1 = u)) = false from decide_eq_false hpu]
        rfl
      rw [this]
      exact ih

theorem mem_insertByLen {e x : EdgeInfo} {l : List EdgeInfo} :
    x ∈ insertByLen e l ↔ x = e ∨ x ∈ l := by
  induction l with
  | nil => simp [insertByLen]
  | cons y ys ih =>
    unfold insertByLen
    split
    · simp
    · simp only [List.mem_cons, ih]
      tauto

theorem mem_sortEdgesByLen {x : EdgeInfo} {l : List EdgeInfo} :
    x ∈ sortEdgesByLen l ↔ x ∈ l := by
  induction l with
  | nil => simp [sortEdgesByLen]
  | cons y ys ih =>
    unfold sortEdgesByLen at ih ⊢
    rw [List.foldr_cons, mem_insertByLen, List.mem_cons, ih]

theorem edgePresent_sortAllEdges (g : OverlapGraph) (u v : NodeId) :
    (sortAllEdges g).edgePresent u v = g.edgePresent u v := by
  unfold sortAllEdges OverlapGraph.edgePresent
  rw [getNode_mapNodes]
  cases g.getNode u with
  | none => rfl
  | some n =>
    simp only [Option.map_some']
    show (sortEdgesByLen n.edges).any _ = n.edges.any _
    rcases h : n.edges.any (fun e => e.target_id = v) with _ | _
    · rw [List.any_eq_false] at h ⊢
      intro e he
      exact h e (mem_sortEdgesByLen.mp he)
    · rw [List.any_eq_true] at h ⊢
      rcases h with ⟨e, he, hev⟩
      exact ⟨e, mem_sortEdgesByLen.mpr he, hev⟩

theorem keys_sortAllEdges (g : OverlapGraph) : (sortAllEdges g).keys = g.keys := by
  rcases g with ⟨l⟩
  show List.map _ (List.map _ l) = List.map _ l
  rw [List.map_map]
  rfl


/-- Claim C6, amended.  reduce_transitive_edges never adds, restores or
moves edges to a different source: the node set is unchanged and every
edge present after a run was present before it (so repeated runs only
shrink the edge set -- but, per the counterexample above, a second run can
still remove further edges: the pass is not idempotent). -/
theorem reduce_transitive_edges_only_removes_edges (g : OverlapGraph) (fuzz : Nat) :
    (reduce_transitive_edges g fuzz).keys = g.keys
    ∧ ∀ u v : NodeId, (reduce_transitive_edges g fuzz).edgePresent u v = true →
        g.edgePresent u v = true := by
  constructor
  · show (List.foldl _ (sortAllEdges g) _).keys = _
    rw [keys_removeEdgeFold, keys_sortAllEdges]
  · intro u v h
    replace h := edgePresent_removeEdgeFold h
    rw [edgePresent_sortAllEdges] at h
    exact h

/-- Witness for the amended C6 theorem: the edge u+ -> v+ of trExampleGraph
survives the first reduction, and the theorem places it in the input. -/
theorem reduce_transitive_edges_only_removes_edges_witness :
    (reduce_transitive_edges trExampleGraph 10).edgePresent ⟨"u", '+'⟩ ⟨"v", '+'⟩ = true
    ∧ trExampleGraph.edgePresent ⟨"u", '+'⟩ ⟨"v", '+'⟩ = true :=
  ⟨by decide, (reduce_transitive_edges_only_removes_edges trExampleGraph 10).2 _ _ (by decide)⟩

/-! ### The cleanup driver loop -/


/-- Characterization of the main.rs cleanup while-loop for an arbitrary
pass body: the loop runs the body while the node count strictly decreases
(first iteration always runs because prev starts above the count), stops at
the first non-decreasing pass, and with fuel at least prev the fueled model
is exact. -/
theorem cleanupLoopFuel_spec (f : OverlapGraph → OverlapGraph) :
    ∀ (fuel : Nat) (g : OverlapGraph) (prev : Nat), prev ≤ fuel →
      (cleanupLoopFuel f fuel g prev).1 = f^[(cleanupLoopFuel f fuel g prev).2] g
      ∧ ((cleanupLoopFuel f fuel g prev).2 = 0 ↔ ¬ g.nodeCount < prev)
      ∧ (∀ k, k + 1 < (cleanupLoopFuel f fuel g prev).2 →
          (f^[k + 1] g).nodeCount < (f^[k] g).nodeCount)
      ∧ (1 ≤ (cleanupLoopFuel f fuel g prev).2 →
          (f^[(cleanupLoopFuel f fuel g prev).2 - 1] g).nodeCount
            ≤ (f^[(cleanupLoopFuel f fuel g prev).2] g).nodeCount) := by
  intro fuel
  induction fuel with
  | zero =>
    intro g prev hle
    have hprev : prev = 0 := Nat.le_zero.mp hle
    subst hprev
    refine ⟨rfl, ?_, ?_, ?_⟩
    · simp [cleanupLoopFuel]
    · intro k hk; simp [cleanupLoopFuel] at hk
    · intro h1; simp [cleanupLoopFuel] at h1
  | succ fuel ih =>
    intro g prev hle
    by_cases hc : g.nodeCount < prev
    · have hfg : g.nodeCount ≤ fuel := by omega
      obtain ⟨iha, ihb, ihc, ihd⟩ := ih (f g) g.nodeCount hfg
      have hunfold : cleanupLoopFuel f (fuel + 1) g prev =
          ((cleanupLoopFuel f fuel (f g) g.nodeCount).1,
           (cleanupLoopFuel f fuel (f g) g.nodeCount).2 + 1) := by
        show (if g.nodeCount < prev then _ else _) = _
        rw [if_pos hc]
      rw [hunfold]
      refine ⟨?_, ?_, ?_, ?_⟩
      · show (cleanupLoopFuel f fuel (f g) g.nodeCount).1 = _
        rw [iha, ← Function.iterate_succ_apply]
      · constructor
        · intro h; exact absurd h (Nat.succ_ne_zero _)
        · intro h; exact absurd hc h
      · intro k hk
        cases k with
        | zero =>
          have h2 : ¬ (cleanupLoopFuel f fuel (f g) g.nodeCount).2 = 0 := by omega
          have := (not_iff_not.mpr ihb).mp h2
          push_neg at this
          simpa using this
        | succ k' =>
          have hk' : k' + 1 < (cleanupLoopFuel f fuel (f g) g.nodeCount).2 := by omega
          have := ihc k' hk'
          rw [← Function.iterate_succ_apply f (k' + 1) g, ← Function.iterate_succ_apply f k' g] at this
          exact this
      · intro _
        show (f^[(cleanupLoopFuel f fuel (f g) g.nodeCount).2 + 1 - 1] g).nodeCount
          ≤ (f^[(cleanupLoopFuel f fuel (f g) g.nodeCount).2 + 1] g).nodeCount
        rw [Nat.add_sub_cancel]
        rcases Nat.eq_zero_or_pos (cleanupLoopFuel f fuel (f g) g.nodeCount).2 with hz | hp
        · rw [hz]
          have hge := ihb.mp hz
          push_neg at hge
          simpa using hge
        · have hstep := ihd hp
          rw [← Function.iterate_succ_apply f ((cleanupLoopFuel f fuel (f g) g.nodeCount).2 - 1) g,
              ← Function.iterate_succ_apply f (cleanupLoopFuel f fuel (f g) g.nodeCount).2 g] at hstep
          have heq : ((cleanupLoopFuel f fuel (f g) g.nodeCount).2 - 1).succ =
              (cleanupLoopFuel f fuel (f g) g.nodeCount).2 := by omega
          rw [heq] at hstep
          exact hstep
    · have hunfold : cleanupLoopFuel f (fuel + 1) g prev = (g, 0) := by
        show (if g.nodeCount < prev then _ else _) = _
        rw [if_neg hc]
      rw [hunfold]
      exact ⟨rfl, by simp [hc], by intro k hk; omega, by intro h1; omega⟩

/-- Claim C3, amended.  The cleanup driver of main.rs does not run a fixed
number of passes: it executes cleanupPass (transitive reduction, then
bubble removal, then small-component removal, then tip trimming, in that
order) at least once and repeats it exactly as long as each pass strictly
decreases the node count -- a convergence check; the cleanup_iterations
CLI tunable is never consulted (main.rs does not even include the cli
module). -/
theorem cleanup_driver_runs_until_node_count_stable (g : OverlapGraph) :
    (cleanupDriver g).1 = cleanupPass^[(cleanupDriver g).2] g
    ∧ 1 ≤ (cleanupDriver g).2
    ∧ (∀ k, k + 1 < (cleanupDriver g).2 →
        (cleanupPass^[k + 1] g).nodeCount < (cleanupPass^[k] g).nodeCount)
    ∧ (cleanupPass^[(cleanupDriver g).2 - 1] g).nodeCount
        ≤ (cleanupPass^[(cleanupDriver g).2] g).nodeCount := by
  obtain ⟨ha, hb, hc, hd⟩ :=
    cleanupLoopFuel_spec cleanupPass (g.nodeCount + 1) g (g.nodeCount + 1) (le_refl _)
  have h1 : 1 ≤ (cleanupDriver g).2 := by
    rcases Nat.eq_zero_or_pos (cleanupDriver g).2 with hz | hp
    · have := hb.mp hz
      omega
    · exact hp
  exact ⟨ha, h1, hc, hd h1⟩

/-- Witness for the amended C3 theorem at driverExampleGraph (two passes:
the first removes both nodes of the sub-4-node component, the second
changes nothing). -/
theorem cleanup_driver_witness :
    1 ≤ (cleanupDriver driverExampleGraph).2
    ∧ (0 + 1 < (cleanupDriver driverExampleGraph).2
        ∧ (cleanupPass^[0 + 1] driverExampleGraph).nodeCount
            < (cleanupPass^[0] driverExampleGraph).nodeCount)
    ∧ (cleanupPass^[(cleanupDriver driverExampleGraph).2 - 1] driverExampleGraph).nodeCount
        ≤ (cleanupPass^[(cleanupDriver driverExampleGraph).2] driverExampleGraph).nodeCount :=
 by
  have hk : 0 + 1 < (cleanupDriver driverExampleGraph).2 := by decide
  exact ⟨(cleanup_driver_runs_until_node_count_stable driverExampleGraph).2.1,
    ⟨hk, (cleanup_driver_runs_until_node_count_stable driverExampleGraph).2.2.1 0 hk⟩,
    (cleanup_driver_runs_until_node_count_stable driverExampleGraph).2.2.2⟩

/-! ### Phase A visited-set invariant -/


theorem visited_subset_phaseAWalk (g : OverlapGraph) (indeg : List (NodeId × Nat)) :
    ∀ (fuel : Nat) (cur : NodeId) (visited : List NodeId) (members : List UnitigMember)
      (x : NodeId), x ∈ visited → x ∈ (phaseAWalk g indeg fuel cur visited members).2.1 := by
  intro fuel
  induction fuel with
  | zero => intro cur visited members x hx; exact hx
  | succ fuel ih =>
    intro cur visited members x hx
    unfold phaseAWalk
    split
    · exact hx
    · split
      · exact hx
      · split
        · exact hx
        · exact ih _ _ _ x (List.mem_append_left _ hx)

theorem visited_subset_phaseAStartEdge (g : OverlapGraph) (indeg : List (NodeId × Nat))
    (id : NodeId) (node : Node) (st : List NodeId × List Unitig) (i : Nat)
    (x : NodeId) (hx : x ∈ st.1) : x ∈ (phaseAStartEdge g indeg id node st i).1 := by
  unfold phaseAStartEdge
  rcases st with ⟨visited, unitigs⟩
  dsimp only
  repeat' split
  all_goals first
    | exact hx
    | exact List.mem_append_left _ hx
    | exact visited_subset_phaseAWalk g indeg _ _ _ _ x (List.mem_append_left _ hx)
    | exact visited_subset_phaseAWalk g indeg _ _ _ _ x
        (List.mem_append_left _ (List.mem_append_left _ hx))

theorem self_mem_phaseAStartEdge (g : OverlapGraph) (indeg : List (NodeId × Nat))
    (id : NodeId) (node : Node) (st : List NodeId × List Unitig) (i : Nat) :
    id ∈ (phaseAStartEdge g indeg id node st i).1 := by
  unfold phaseAStartEdge
  rcases st with ⟨visited, unitigs⟩
  dsimp only
  repeat' split
  all_goals first
    | (refine visited_subset_phaseAWalk g indeg _ _ _ _ id ?_
       simp_all)
    | simp_all

theorem visited_subset_phaseARangeFold (g : OverlapGraph) (indeg : List (NodeId × Nat))
    (id : NodeId) (node : Node) :
    ∀ (l : List Nat) (st : List NodeId × List Unitig) (x : NodeId), x ∈ st.1 →
      x ∈ (l.foldl (phaseAStartEdge g indeg id node) st).1 := by
  intro l
  induction l with
  | nil => intro st x hx; exact hx
  | cons i t ih =>
    intro st x hx
    exact ih _ x (visited_subset_phaseAStartEdge g indeg id node st i x hx)

theorem self_mem_phaseARangeFold (g : OverlapGraph) (indeg : List (NodeId × Nat))
    (id : NodeId) (node : Node) (i : Nat) (t : List Nat) (st : List NodeId × List Unitig) :
    id ∈ ((i :: t).foldl (phaseAStartEdge g indeg id node) st).1 := by
  rw [List.foldl_cons]
  exact visited_subset_phaseARangeFold g indeg id node t _ id
    (self_mem_phaseAStartEdge g indeg id node st i)

theorem phaseANodeStep_visits_or_excused (g : OverlapGraph) (indeg : List (NodeId × Nat))
    (st : List NodeId × List Unitig) (p : NodeId × Node) :
    p.1 ∈ (phaseANodeStep g indeg st p).1
    ∨ p.2.edges.length = 0
    ∨ ((assocGet indeg p.1).getD 0 = 1 ∧ p.2.edges.length = 1) := by
  unfold phaseANodeStep
  dsimp only
  by_cases hv : st.1.contains p.1
  · rw [if_pos hv]
    exact Or.inl (by simpa using hv)
  · rw [if_neg hv]
    by_cases hb : ¬ (assocGet indeg p.1).getD 0 = 1 ∨ ¬ p.2.edges.length = 1
    · rw [if_pos hb]
      cases hlen : p.2.edges.length with
      | zero => exact Or.inr (Or.inl rfl)
      | succ m =>
        rw [List.range_succ_eq_map]
        exact Or.inl (self_mem_phaseARangeFold g indeg p.1 p.2 0 _ st)
    · rw [if_neg hb]
      push_neg at hb
      exact Or.inr (Or.inr ⟨hb.1, hb.2⟩)

theorem phaseANodeStep_subset (g : OverlapGraph) (indeg : List (NodeId × Nat))
    (st : List NodeId × List Unitig) (p : NodeId × Node) (x : NodeId) (hx : x ∈ st.1) :
    x ∈ (phaseANodeStep g indeg st p).1 := by
  unfold phaseANodeStep
  dsimp only
  by_cases hv : st.1.contains p.1
  · rw [if_pos hv]; exact hx
  · rw [if_neg hv]
    by_cases hb : ¬ (assocGet indeg p.1).getD 0 = 1 ∨ ¬ p.2.edges.length = 1
    · rw [if_pos hb]
      exact visited_subset_phaseARangeFold g indeg p.1 p.2 _ st x hx
    · rw [if_neg hb]; exact hx

theorem visited_subset_phaseANodeFold (g : OverlapGraph) (indeg : List (NodeId × Nat)) :
    ∀ (l : List (NodeId × Node)) (st : List NodeId × List Unitig) (x : NodeId), x ∈ st.1 →
      x ∈ (l.foldl (phaseANodeStep g indeg) st).1 := by
  intro l
  induction l with
  | nil => intro st x hx; exact hx
  | cons q t ih =>
    intro st x hx
    exact ih _ x (phaseANodeStep_subset g indeg st q x hx)

theorem phaseA_fold_unvisited (g : OverlapGraph) (indeg : List (NodeId × Nat)) :
    ∀ (l : List (NodeId × Node)) (st : List NodeId × List Unitig),
      ∀ p ∈ l, p.1 ∈ (l.foldl (phaseANodeStep g indeg) st).1
        ∨ p.2.edges.length = 0
        ∨ ((assocGet indeg p.1).getD 0 = 1 ∧ p.2.edges.length = 1) := by
  intro l
  induction l with
  | nil => intro st p hp; cases hp
  | cons q t ih =>
    intro st p hp
    rcases List.mem_cons.mp hp with rfl | hpt
    · rw [List.foldl_cons]
      rcases phaseANodeStep_visits_or_excused g indeg st p with h | h
      · exact Or.inl (visited_subset_phaseANodeFold g indeg t _ p.1 h)
      · exact Or.inr h
    · rw [List.foldl_cons]
      exact ih _ p hpt

/-- Claim C8, amended.  After Phase A of compress_unitigs, every node that
remains unvisited either has out-degree 0 (Phase A only marks nodes while
walking outgoing edges, and an out-degree-0 node spawns no walk) or has
in-degree 1 and out-degree 1.  The original claim's further assertion that
such nodes lie on a cycle fails as well (a chain hanging off a node first
visited as a chain interior stays unvisited without being cyclic), and is
not salvaged here. -/
theorem phaseA_unvisited_out_zero_or_simple (g : OverlapGraph) (n : NodeId) (node : Node)
    (hmem : (n, node) ∈ g.nodes)
    (hunvis : ¬ (compressPhaseA g).1.contains n = true) :
    node.edges.length = 0
    ∨ ((assocGet (compressIndegree g) n).getD 0 = 1 ∧ node.edges.length = 1) := by
  rcases phaseA_fold_unvisited g (compressIndegree g) g.nodes ([], []) (n, node) hmem
    with h | h
  · exact absurd (by simpa using h) hunvis
  · exact h

/-- Witness for the amended C8 theorem at the isolated-node graph. -/
theorem phaseA_unvisited_witness :
    (Node.mk []).edges.length = 0
    ∨ ((assocGet (compressIndegree phaseAExampleGraph) ⟨"u", '+'⟩).getD 0 = 1
        ∧ (Node.mk []).edges.length = 1) :=
  phaseA_unvisited_out_zero_or_simple phaseAExampleGraph ⟨"u", '+'⟩ ⟨[]⟩
    (by decide) (by decide)

/-! ## Claim C4 (amended): remove_short_edges per-node characterization -/

theorem swapRemove_perm {l : List EdgeInfo} {i : Nat} (hi : i < l.length) :
    List.Perm (l.swapRemove i) (l.eraseIdx i) := by
  have hne : l ≠ [] := by
    intro h; subst h; simp at hi
  obtain ⟨last, hl⟩ : ∃ a, l.getLast? = some a := by
    cases h : l.getLast? with
    | none => exact absurd (List.getLast?_eq_none_iff.mp h) hne
    | some a => exact ⟨a, rfl⟩
  unfold List.swapRemove
  rw [hl]
  show List.Perm (if i + 1 = l.length then l.dropLast else l.dropLast.set i last) _
  by_cases hcase : i + 1 = l.length
  · rw [if_pos hcase]
    rw [List.dropLast_eq_take, List.eraseIdx_eq_take_drop_succ]
    have : l.drop (i + 1) = [] := by
      apply List.drop_eq_nil_of_le
      omega
    rw [this, List.append_nil]
    have : l.length - 1 = i := by omega
    rw [this]
  · rw [if_neg hcase]
    have hlen : i < l.length - 1 := by omega
    have hid : i < l.dropLast.length := by
      rw [List.length_dropLast]; exact hlen
    rw [List.set_eq_take_append_cons_drop, if_pos hid]
    rw [List.eraseIdx_eq_take_drop_succ]
    have htake : l.dropLast.take i = l.take i := by
      rw [List.dropLast_eq_take, List.take_take]
      congr 1
      omega
    have hD : l.dropLast.drop (i + 1) = (l.drop (i + 1)).dropLast := by
      rw [List.dropLast_eq_take, List.drop_take, List.dropLast_eq_take, List.length_drop]
      congr 1
      omega
    have hDne : l.drop (i + 1) ≠ [] := by
      intro h
      have := List.drop_eq_nil_iff.mp h
      omega
    have hDlast : (l.drop (i + 1)).getLast? = some last := by
      rw [← hl]
      conv_rhs => rw [← List.take_append_drop (i + 1) l]
      rw [List.getLast?_append_of_ne_nil _ hDne]
    rw [htake, hD]
    apply List.Perm.append_left
    have hdecomp : (l.drop (i + 1)).dropLast ++ [last] = l.drop (i + 1) := by
      have hgl := List.dropLast_append_getLast hDne
      rw [List.getLast?_eq_getLast _ hDne] at hDlast
      rw [Option.some_inj.mp hDlast] at hgl
      exact hgl
    conv_rhs => rw [← hdecomp]
    exact (List.perm_append_singleton _ _).symm

theorem nodup_map_swapRemove {l : List EdgeInfo} {i : Nat} (hi : i < l.length)
    {f : EdgeInfo → NodeId} (h : (l.map f).Nodup) : ((l.swapRemove i).map f).Nodup := by
  have hperm : List.Perm ((l.swapRemove i).map f) ((l.eraseIdx i).map f) :=
    (swapRemove_perm hi).map f
  have hsub : List.Sublist ((l.eraseIdx i).map f) (l.map f) :=
    (List.eraseIdx_sublist l i).map f
  exact (h.sublist hsub).perm hperm.symm

theorem mem_remove_edge_iff {n : Node} {t : NodeId}
    (hnd : (n.edges.map (fun e => e.target_id)).Nodup) (x : EdgeInfo) :
    x ∈ (n.remove_edge t).edges ↔ x ∈ n.edges ∧ ¬ x.target_id = t := by
  have hndl : n.edges.Nodup := List.Nodup.of_map _ hnd
  unfold Node.remove_edge
  cases hf : n.edges.findIdx? (fun e => e.target_id = t) with
  | none =>
    constructor
    · intro hx
      refine ⟨hx, ?_⟩
      have := List.findIdx?_eq_none_iff.mp hf x hx
      simpa using this
    · exact fun h => h.1
  | some i =>
    obtain ⟨hi, hp, -⟩ := List.findIdx?_eq_some_iff_getElem.mp hf
    have hit : (n.edges[i]).target_id = t := by simpa using hp
    constructor
    · intro hx
      have hx' : x ∈ n.edges.eraseIdx i := ((swapRemove_perm hi).mem_iff).mp hx
      obtain ⟨j, hj, hji, hje⟩ := List.mem_eraseIdx_iff_getElem.mp hx'
      refine ⟨hje ▸ List.getElem_mem hj, ?_⟩
      intro hxt
      have hel : n.edges[j] = n.edges[i] := by
        apply List.inj_on_of_nodup_map hnd (List.getElem_mem hj) (List.getElem_mem hi)
        show (n.edges[j]).target_id = (n.edges[i]).target_id
        rw [hje, hxt, hit]
      exact hji ((List.Nodup.getElem_inj_iff hndl).mp hel)
    · intro hx
      obtain ⟨j, hj, hje⟩ := List.mem_iff_getElem.mp hx.1
      have hji : j ≠ i := by
        intro h
        subst h
        rw [hje] at hit
        exact hx.2 hit
      have hmem : x ∈ n.edges.eraseIdx i :=
        List.mem_eraseIdx_iff_getElem.mpr ⟨j, hj, hji, hje⟩
      exact ((swapRemove_perm hi).mem_iff).mpr hmem

theorem nodup_remove_edge {n : Node} {t : NodeId}
    (hnd : (n.edges.map (fun e => e.target_id)).Nodup) :
    (((n.remove_edge t).edges).map (fun e => e.target_id)).Nodup := by
  unfold Node.remove_edge
  cases hf : n.edges.findIdx? (fun e => e.target_id = t) with
  | none => exact hnd
  | some i =>
    obtain ⟨hi, -, -⟩ := List.findIdx?_eq_some_iff_getElem.mp hf
    exact nodup_map_swapRemove hi hnd


theorem targetsNodup_getNode {g : OverlapGraph} {id : NodeId} {m : Node}
    (hg : targetsNodup g) (h : g.getNode id = some m) :
    (m.edges.map (fun e => e.target_id)).Nodup := by
  unfold OverlapGraph.getNode at h
  cases hf : g.nodes.find? (fun p => p.1 = id) with
  | none => rw [hf] at h; cases h
  | some p =>
    rw [hf] at h
    have hp : p ∈ g.nodes := List.mem_of_find?_eq_some hf
    have : p.2 = m := by simpa using h
    exact this ▸ hg p hp

theorem targetsNodup_setNode {g : OverlapGraph} {a : NodeId} {m : Node}
    (hg : targetsNodup g) (hm : (m.edges.map (fun e => e.target_id)).Nodup) :
    targetsNodup (g.setNode a m) := by
  intro p hp
  obtain ⟨q, hq, hqp⟩ := List.mem_map.mp hp
  by_cases h : q.1 = a
  · rw [if_pos h] at hqp
    rw [← hqp]
    exact hm
  · rw [if_neg h] at hqp
    rw [← hqp]
    exact hg q hq

theorem targetsNodup_removeEdge {g : OverlapGraph} {a b : NodeId}
    (hg : targetsNodup g) : targetsNodup (g.removeEdge a b) := by
  unfold OverlapGraph.removeEdge
  cases hga : g.getNode a with
  | none => exact hg
  | some n => exact targetsNodup_setNode hg (nodup_remove_edge (targetsNodup_getNode hg hga))

theorem getNode_removeEdge_ne {g : OverlapGraph} {a b u : NodeId} (h : ¬ u = a) :
    (g.removeEdge a b).getNode u = g.getNode u := by
  unfold OverlapGraph.removeEdge
  cases hga : g.getNode a with
  | none => rfl
  | some n => rw [getNode_setNode, if_neg h]

theorem edgePresent_congr {g1 g2 : OverlapGraph} {t u : NodeId}
    (h : g1.getNode t = g2.getNode t) : g1.edgePresent t u = g2.edgePresent t u := by
  unfold OverlapGraph.edgePresent
  rw [h]

theorem mem_removeEdgeNodeFold (ts : List NodeId) :
    ∀ (n : Node), (n.edges.map (fun e => e.target_id)).Nodup →
    ∀ x, (x ∈ (ts.foldl (fun m t => m.remove_edge t) n).edges ↔
      x ∈ n.edges ∧ ¬ x.target_id ∈ ts) := by
  induction ts with
  | nil => intro n _ x; simp
  | cons t ts' ih =>
    intro n hnd x
    rw [List.foldl_cons, ih _ (nodup_remove_edge hnd), mem_remove_edge_iff hnd,
      List.mem_cons]
    constructor
    · intro h
      refine ⟨h.1.1, ?_⟩
      intro hc
      rcases hc with hc | hc
      · exact h.1.2 hc
      · exact h.2 hc
    · intro h
      exact ⟨⟨h.1, fun hc => h.2 (Or.inl hc)⟩, fun hc => h.2 (Or.inr hc)⟩

theorem removeShortFold_spec (u : NodeId) (ts : List NodeId) :
    ∀ (g : OverlapGraph) (n : Node),
    g.getNode u = some n → targetsNodup g → ts.Nodup → (∀ t ∈ ts, ¬ t = u) →
    ((ts.foldl (fun g t => match g.getNode u with
      | none => g
      | some n => (g.setNode u (n.remove_edge t)).removeEdge t u) g).getNode u
        = some (ts.foldl (fun m t => m.remove_edge t) n)
    ∧ targetsNodup (ts.foldl (fun g t => match g.getNode u with
      | none => g
      | some n => (g.setNode u (n.remove_edge t)).removeEdge t u) g)
    ∧ (∀ t ∈ ts, (ts.foldl (fun g t => match g.getNode u with
      | none => g
      | some n => (g.setNode u (n.remove_edge t)).removeEdge t u) g).edgePresent t u = false)
    ∧ (∀ v, ¬ v ∈ ts → ¬ v = u → (ts.foldl (fun g t => match g.getNode u with
      | none => g
      | some n => (g.setNode u (n.remove_edge t)).removeEdge t u) g).getNode v
        = g.getNode v)) := by
  induction ts with
  | nil =>
    intro g n hg hnd _ _
    refine ⟨hg, hnd, ?_, ?_⟩
    · intro t ht
      cases ht
    · intro v _ _
      rfl
  | cons t ts' ih =>
    intro g n hg hnd hnodup hne
    have htu : ¬ t = u := hne t (List.mem_cons_self t ts')
    have hts'u : ∀ t' ∈ ts', ¬ t' = u := fun t' ht' => hne t' (List.mem_cons_of_mem t ht')
    have hnodup' : ts'.Nodup := (List.nodup_cons.mp hnodup).2
    have htnotin : ¬ t ∈ ts' := (List.nodup_cons.mp hnodup).1
    -- the one-step graph
    set g1 := (g.setNode u (n.remove_edge t)).removeEdge t u with hg1
    have hstep : (match g.getNode u with
      | none => g
      | some m => (g.setNode u (m.remove_edge t)).removeEdge t u) = g1 := by
      rw [hg]
    have hg1u : g1.getNode u = some (n.remove_edge t) := by
      rw [hg1, getNode_removeEdge_ne (fun h => htu h.symm), getNode_setNode, if_pos rfl, hg]
      rfl
    have hnd1 : targetsNodup g1 := by
      rw [hg1]
      exact targetsNodup_removeEdge
        (targetsNodup_setNode hnd (nodup_remove_edge (targetsNodup_getNode hnd hg)))
    have hg1t_pres : g1.edgePresent t u = false := by
      rw [hg1]
      unfold OverlapGraph.removeEdge
      cases hgt : (g.setNode u (n.remove_edge t)).getNode t with
      | none =>
        unfold OverlapGraph.edgePresent
        rw [hgt]
      | some nt =>
        unfold OverlapGraph.edgePresent
        rw [getNode_setNode, if_pos rfl, hgt]
        simp only [Option.map_some']
        have hndt : (nt.edges.map (fun e => e.target_id)).Nodup := by
          rw [getNode_setNode, if_neg htu] at hgt
          exact targetsNodup_getNode hnd hgt
        rw [List.any_eq_false]
        intro e he
        have := ((mem_remove_edge_iff hndt e).mp he).2
        simpa using this
    obtain ⟨ih1, ih2, ih3, ih4⟩ := ih g1 (n.remove_edge t) hg1u hnd1 hnodup' hts'u
    rw [List.foldl_cons, hstep]
    refine ⟨ih1, ih2, ?_, ?_⟩
    · intro t' ht'
      rcases List.mem_cons.mp ht' with h | h
      · subst h
        have hkeep : (ts'.foldl (fun g t => match g.getNode u with
          | none => g
          | some n => (g.setNode u (n.remove_edge t)).removeEdge t u) g1).getNode t'
            = g1.getNode t' := ih4 t' htnotin htu
        rw [edgePresent_congr hkeep]
        exact hg1t_pres
      · exact ih3 t' h
    · intro v hv hvu
      have hv' : ¬ v ∈ ts' := fun h => hv (List.mem_cons_of_mem t h)
      have hvt : ¬ v = t := fun h => hv (h ▸ List.mem_cons_self t ts')
      rw [ih4 v hv' hvu, hg1, getNode_removeEdge_ne hvt, getNode_setNode, if_neg hvu]

/-- Claim C4 (amended).  remove_short_edges folds a per-node body over the
node keys; at a node u with at least two outgoing edges (targets distinct,
none pointing back at u) the body computes the threshold
T = trunc(M * drop_ratio + 0.499) -- truncation of M * drop_ratio + 0.499,
not round(M * drop_ratio) -- where M is the maximum overlap_len among u's
outgoing edges, removes exactly the outgoing edges with overlap_len < T
(the kept edges are exactly the original edges with overlap_len >= T, and
no edge is invented), and for each removed edge u -> t it also removes the
plain reverse edge t -> u, not the reverse-complement twin
rc(t) -> rc(u). -/
theorem remove_short_edges_node_characterization
    (g : OverlapGraph) (u : NodeId) (node : Node) (dropRat : Frac) (T : Nat)
    (hget : g.getNode u = some node)
    (h2 : ¬ node.edges.length < 2)
    (hnd : targetsNodup g)
    (hnou : ∀ e ∈ node.edges, ¬ e.target_id = u)
    (hT : T = u32SatOfRatFloor (Frac.ofNat
        ((listMaxNat (node.edges.map (fun e => e.overlap_len))).getD 0) * dropRat
        + Frac.mk 499 1000)) :
    remove_short_edges g dropRat = g.keys.foldl (removeShortStep dropRat) g
    ∧ (∃ node2, (removeShortStep dropRat g u).getNode u = some node2
        ∧ (∀ e, e ∈ node2.edges ↔ e ∈ node.edges ∧ T ≤ e.overlap_len))
    ∧ (∀ e ∈ node.edges, e.overlap_len < T →
        (removeShortStep dropRat g u).edgePresent e.target_id u = false) := by
  subst hT
  have hndu : (node.edges.map (fun e => e.target_id)).Nodup := targetsNodup_getNode hnd hget
  set T := u32SatOfRatFloor (Frac.ofNat
      ((listMaxNat (node.edges.map (fun e => e.overlap_len))).getD 0) * dropRat
      + Frac.mk 499 1000) with hT
  set toRemove := (node.edges.filter (fun e => e.overlap_len < T)).map
      (fun e => e.target_id) with hTR
  have hrs : removeShortStep dropRat g u = toRemove.foldl (fun g t =>
      match g.getNode u with
      | none => g
      | some m => (g.setNode u (m.remove_edge t)).removeEdge t u) g := by
    unfold removeShortStep
    simp only [hget]
    rw [if_neg h2]
  have hTRnodup : toRemove.Nodup := by
    rw [hTR]
    exact hndu.sublist ((node.edges.filter_sublist).map _)
  have hTRne : ∀ t ∈ toRemove, ¬ t = u := by
    intro t ht
    rw [hTR] at ht
    obtain ⟨e, he, rfl⟩ := List.mem_map.mp ht
    exact hnou e (List.mem_of_mem_filter he)
  have htarget : ∀ e ∈ node.edges, (e.target_id ∈ toRemove ↔ e.overlap_len < T) := by
    intro e he
    constructor
    · intro ht
      rw [hTR] at ht
      obtain ⟨e', he', het⟩ := List.mem_map.mp ht
      have hee : e' = e :=
        List.inj_on_of_nodup_map hndu (List.mem_of_mem_filter he') he het
      have hp := (List.mem_filter.mp he').2
      rw [← hee]
      simpa using hp
    · intro hlt
      rw [hTR]
      exact List.mem_map.mpr ⟨e, List.mem_filter.mpr ⟨he, by simpa using hlt⟩, rfl⟩
  obtain ⟨h1, -, h3, -⟩ :=
    removeShortFold_spec u toRemove g node hget hnd hTRnodup hTRne
  refine ⟨rfl, ?_, ?_⟩
  · refine ⟨toRemove.foldl (fun m t => m.remove_edge t) node, ?_, ?_⟩
    · rw [hrs]
      exact h1
    · intro e
      rw [mem_removeEdgeNodeFold toRemove node hndu e]
      constructor
      · intro h
        refine ⟨h.1, ?_⟩
        by_cases hlt : e.overlap_len < T
        · exact absurd ((htarget e h.1).mpr hlt) h.2
        · omega
      · intro h
        refine ⟨h.1, ?_⟩
        intro hc
        have := (htarget e h.1).mp hc
        omega
  · intro e he hlt
    rw [hrs]
    exact h3 e.target_id ((htarget e he).mpr hlt)


theorem remove_short_edges_node_characterization_witness :
    shortEdgeExampleB.getNode ⟨"u", '+'⟩ = some shortEdgeExampleBNode
    ∧ ¬ shortEdgeExampleBNode.edges.length < 2
    ∧ targetsNodup shortEdgeExampleB
    ∧ (∀ e ∈ shortEdgeExampleBNode.edges, ¬ e.target_id = ⟨"u", '+'⟩)
    ∧ (5 : Nat) = u32SatOfRatFloor (Frac.ofNat
        ((listMaxNat (shortEdgeExampleBNode.edges.map (fun e => e.overlap_len))).getD 0)
          * Frac.mk 1 2 + Frac.mk 499 1000)
    ∧ (remove_short_edges shortEdgeExampleB (Frac.mk 1 2)
        = shortEdgeExampleB.keys.foldl (removeShortStep (Frac.mk 1 2)) shortEdgeExampleB
      ∧ (∃ node2, (removeShortStep (Frac.mk 1 2) shortEdgeExampleB ⟨"u", '+'⟩).getNode
            ⟨"u", '+'⟩ = some node2
          ∧ (∀ e, e ∈ node2.edges ↔ e ∈ shortEdgeExampleBNode.edges ∧ 5 ≤ e.overlap_len))
      ∧ (∀ e ∈ shortEdgeExampleBNode.edges, e.overlap_len < 5 →
          (removeShortStep (Frac.mk 1 2) shortEdgeExampleB ⟨"u", '+'⟩).edgePresent
            e.target_id ⟨"u", '+'⟩ = false)) :=
  ⟨by decide, by decide, by decide, by decide, by decide,
    remove_short_edges_node_characterization shortEdgeExampleB ⟨"u", '+'⟩
      shortEdgeExampleBNode (Frac.mk 1 2) 5
      (by decide) (by decide) (by decide) (by decide) (by decide)⟩

/-! ## Claim C10: pass-1 coverage does not depend on the dedup choice -/

theorem covProj_getOrCreateRead (st : FilterState) (nm : String) (len covEnd : Nat) :
    covGetOrCreateRead st.covProj nm len covEnd =
      ((getOrCreateRead st nm len covEnd).1, (getOrCreateRead st nm len covEnd).2.covProj) := by
  unfold getOrCreateRead covGetOrCreateRead
  simp only [FilterState.covProj]
  cases h : lookupName st.read_name2read_id nm with
  | some id => rfl
  | none => rfl

theorem covProj_filterPafPass1Step (m : Nat) (p : Frac) (st : FilterState) (r : PafRec) :
    (filterPafPass1Step m p st r).covProj = coverageOnlyStep m p st.covProj r := by
  unfold filterPafPass1Step coverageOnlyStep
  by_cases hp : ¬ passesCrudeFilters r m p = true
  · rw [if_pos hp, if_pos hp]
  · rw [if_neg hp, if_neg hp]
    rw [covProj_getOrCreateRead]
    cases hg1 : getOrCreateRead st r.query_name r.query_length r.query_length with
    | mk query_id st1 =>
      dsimp only
      rw [covProj_getOrCreateRead]
      cases hg2 : getOrCreateRead st1 r.target_name r.target_length r.query_length with
      | mk target_id st2 =>
        dsimp only
        repeat' split
        all_goals rfl

theorem covProj_filterPafPass1Fold (m : Nat) (p : Frac) :
    ∀ (records : List PafRec) (st : FilterState),
    (records.foldl (filterPafPass1Step m p) st).covProj
      = records.foldl (coverageOnlyStep m p) st.covProj := by
  intro records
  induction records with
  | nil => intro st; rfl
  | cons r rs ih =>
    intro st
    rw [List.foldl_cons, List.foldl_cons, ih, covProj_filterPafPass1Step]

/-- Claim C10.  Pass 1 of filter_paf increments per-base coverage over the
query interval [qs,qe) and the target interval [ts,te) for every record
passing the self-alignment, span-length and identity crude filters,
regardless of what the best-per-pair deduplication keeps: the
coverage-relevant projection of the pass-1 state (read-name map, reads with
their coverage arrays, id counter) equals the dedup-free accumulation
coverageOnlyPass, and consequently every coverage window computed from the
resulting arrays agrees. -/
theorem filter_paf_coverage_independent_of_dedup (records : List PafRec)
    (m : Nat) (p : Frac) :
    (filterPafPass1 records m p).covProj = coverageOnlyPass records m p
    ∧ ∀ c : Nat,
      (filterPafPass1 records m p).reads.map
          (fun rd => coverageWindow rd.per_base_coverage c)
        = (coverageOnlyPass records m p).reads.map
          (fun rd => coverageWindow rd.per_base_coverage c) := by
  have h : (filterPafPass1 records m p).covProj = coverageOnlyPass records m p := by
    unfold filterPafPass1 coverageOnlyPass
    rw [covProj_filterPafPass1Fold]
    rfl
  refine ⟨h, ?_⟩
  intro c
  have hr : (filterPafPass1 records m p).reads = (coverageOnlyPass records m p).reads := by
    rw [← h]
    rfl
  rw [hr]

/-! ## Claim C7: unitig_sequence length and consistency -/

theorem unitigSequenceLoop_ok (g : OverlapGraph) (seqs : List (String × String)) :
    ∀ (ms : List UnitigMember) (lst : UnitigMember) (out : String),
    (∀ m ∈ ms, ∃ t, m.edge.1 = some t) →
    lst.edge.1 = none →
    (∀ m ∈ ms ++ [lst], ∃ s, get_seq g seqs m.node_id = Except.ok s) →
    (∀ m ∈ ms, m.edge.2 ≤ ((get_seq g seqs m.node_id).toOption.getD "").length) →
    ∃ s, unitigSequenceLoop g seqs (ms ++ [lst]) out = Except.ok s ∧
      s.length = out.length + (ms.map (fun m => m.edge.2)).sum
        + ((get_seq g seqs lst.node_id).toOption.getD "").length := by
  intro ms
  induction ms with
  | nil =>
    intro lst out _ hlast hav _
    obtain ⟨s, hs⟩ := hav lst (List.mem_singleton.mpr rfl)
    refine ⟨out ++ s, ?_, ?_⟩
    · show unitigSequenceLoop g seqs [lst] out = Except.ok (out ++ s)
      simp only [unitigSequenceLoop, hs, hlast]
    · rw [hs]
      simp [String.length_append, Except.toOption]
  | cons m ms' ih =>
    intro lst out hinter hlast hav hbound
    obtain ⟨t, ht⟩ := hinter m (List.mem_cons_self m ms')
    obtain ⟨s, hs⟩ := hav m (List.mem_cons_self m _)
    have hb := hbound m (List.mem_cons_self m ms')
    rw [hs] at hb
    have hb' : m.edge.2 ≤ s.length := by simpa [Except.toOption] using hb
    have hnotlt : ¬ s.length < m.edge.2 := by omega
    obtain ⟨s', hs', hlen⟩ := ih lst (out ++ String.mk (s.data.take m.edge.2))
      (fun x hx => hinter x (List.mem_cons_of_mem m hx)) hlast
      (fun x hx => hav x (List.mem_cons_of_mem m hx))
      (fun x hx => hbound x (List.mem_cons_of_mem m hx))
    refine ⟨s', ?_, ?_⟩
    · show unitigSequenceLoop g seqs (m :: (ms' ++ [lst])) out = Except.ok s'
      simp only [unitigSequenceLoop, hs, ht]
      rw [if_neg hnotlt]
      exact hs'
    · rw [hlen]
      have h2 : (out ++ String.mk (s.data.take m.edge.2)).length
          = out.length + m.edge.2 := by
        rw [String.length_append]
        show out.length + (s.data.take m.edge.2).length = out.length + m.edge.2
        rw [List.length_take]
        have hsd : s.length = s.data.length := rfl
        omega
      rw [h2, List.map_cons, List.sum_cons]
      omega

theorem unitigSequenceLoop_error (g : OverlapGraph) (seqs : List (String × String)) :
    ∀ (ms : List UnitigMember) (rest : List UnitigMember) (out : String),
    (∀ m ∈ ms, ∃ t, m.edge.1 = some t) →
    (∀ m ∈ ms, ∃ s, get_seq g seqs m.node_id = Except.ok s) →
    (∃ m ∈ ms, ((get_seq g seqs m.node_id).toOption.getD "").length < m.edge.2) →
    ∃ e, unitigSequenceLoop g seqs (ms ++ rest) out = Except.error e := by
  intro ms
  induction ms with
  | nil =>
    intro rest out _ _ hex
    obtain ⟨m, hm, -⟩ := hex
    cases hm
  | cons m ms' ih =>
    intro rest out hinter hav hex
    obtain ⟨t, ht⟩ := hinter m (List.mem_cons_self m ms')
    obtain ⟨s, hs⟩ := hav m (List.mem_cons_self m ms')
    by_cases hviol : s.length < m.edge.2
    · refine ⟨"edge length larger than seq length", ?_⟩
      show unitigSequenceLoop g seqs (m :: (ms' ++ rest)) out
        = Except.error "edge length larger than seq length"
      simp only [unitigSequenceLoop, hs, ht]
      rw [if_pos hviol]
    · have hex' : ∃ x ∈ ms', ((get_seq g seqs x.node_id).toOption.getD "").length < x.edge.2 := by
        obtain ⟨x, hx, hxv⟩ := hex
        rcases List.mem_cons.mp hx with h | h
        · subst h
          rw [hs] at hxv
          exact absurd (by simpa [Except.toOption] using hxv) hviol
        · exact ⟨x, h, hxv⟩
      obtain ⟨e, he⟩ := ih rest (out ++ String.mk (s.data.take m.edge.2))
        (fun x hx => hinter x (List.mem_cons_of_mem m hx))
        (fun x hx => hav x (List.mem_cons_of_mem m hx)) hex'
      refine ⟨e, ?_⟩
      show unitigSequenceLoop g seqs (m :: (ms' ++ rest)) out = Except.error e
      simp only [unitigSequenceLoop, hs, ht]
      rw [if_neg hviol]
      exact he

/-- Claim C7.  For a non-circular unitig (members split as intermediates
ms, each carrying a next target, followed by a last member with the empty
next-target sentinel) whose members' oriented sequences are all available:
if every intermediate's edge_len is at most the length of that member's
oriented sequence, unitig_sequence succeeds and the result's length is the
sum of the intermediates' edge_len values plus the length of the last
member's oriented sequence; if some intermediate's oriented sequence is
shorter than its edge_len, unitig_sequence returns an error. -/
theorem unitig_sequence_length (u : Unitig) (g : OverlapGraph)
    (seqs : List (String × String)) (ms : List UnitigMember) (lst : UnitigMember)
    (hms : u.members = ms ++ [lst])
    (hinter : ∀ m ∈ ms, ∃ t, m.edge.1 = some t)
    (hlast : lst.edge.1 = none)
    (hav : ∀ m ∈ u.members, ∃ s, get_seq g seqs m.node_id = Except.ok s) :
    ((∀ m ∈ ms, m.edge.2 ≤ ((get_seq g seqs m.node_id).toOption.getD "").length) →
      ∃ s, unitig_sequence u g seqs = Except.ok s ∧
        s.length = (ms.map (fun m => m.edge.2)).sum
          + ((get_seq g seqs lst.node_id).toOption.getD "").length)
    ∧ ((∃ m ∈ ms, ((get_seq g seqs m.node_id).toOption.getD "").length < m.edge.2) →
      ∃ e, unitig_sequence u g seqs = Except.error e) := by
  rw [hms] at hav
  constructor
  · intro hbound
    obtain ⟨s, hs, hlen⟩ := unitigSequenceLoop_ok g seqs ms lst "" hinter hlast hav hbound
    refine ⟨s, ?_, ?_⟩
    · unfold unitig_sequence
      rw [hms]
      exact hs
    · simpa using hlen
  · intro hex
    obtain ⟨e, he⟩ := unitigSequenceLoop_error g seqs ms [lst] "" hinter
      (fun m hm => hav m (List.mem_append.mpr (Or.inl hm))) hex
    refine ⟨e, ?_⟩
    unfold unitig_sequence
    rw [hms]
    exact he

theorem unitig_sequence_length_witness :
    unitigExample.members
      = [⟨⟨"a", '+'⟩, (some ⟨"b", '+'⟩, 2)⟩] ++ [⟨⟨"b", '+'⟩, (none, 0)⟩]
    ∧ (∀ m ∈ ([⟨⟨"a", '+'⟩, (some ⟨"b", '+'⟩, 2)⟩] : List UnitigMember),
        ∃ t, m.edge.1 = some t)
    ∧ (⟨⟨"b", '+'⟩, (none, 0)⟩ : UnitigMember).edge.1 = none
    ∧ (∀ m ∈ unitigExample.members,
        ∃ s, get_seq unitigExampleGraph unitigExampleSeqs m.node_id = Except.ok s)
    ∧ (((∀ m ∈ ([⟨⟨"a", '+'⟩, (some ⟨"b", '+'⟩, 2)⟩] : List UnitigMember),
          m.edge.2 ≤ ((get_seq unitigExampleGraph unitigExampleSeqs
            m.node_id).toOption.getD "").length) →
        ∃ s, unitig_sequence unitigExample unitigExampleGraph unitigExampleSeqs
            = Except.ok s ∧
          s.length = (([⟨⟨"a", '+'⟩, (some ⟨"b", '+'⟩, 2)⟩] : List UnitigMember).map
              (fun m => m.edge.2)).sum
            + ((get_seq unitigExampleGraph unitigExampleSeqs
                (⟨⟨"b", '+'⟩, (none, 0)⟩ : UnitigMember).node_id).toOption.getD "").length)
      ∧ ((∃ m ∈ ([⟨⟨"a", '+'⟩, (some ⟨"b", '+'⟩, 2)⟩] : List UnitigMember),
          ((get_seq unitigExampleGraph unitigExampleSeqs
            m.node_id).toOption.getD "").length < m.edge.2) →
        ∃ e, unitig_sequence unitigExample unitigExampleGraph unitigExampleSeqs
          = Except.error e)) :=
  ⟨rfl,
   by
     intro m hm
     rw [List.mem_singleton] at hm
     subst hm
     exact ⟨⟨"b", '+'⟩, rfl⟩,
   rfl,
   by
     intro m hm
     rcases List.mem_cons.mp hm with h | hm'
     · subst h
       exact ⟨"ACGT", rfl⟩
     · rw [List.mem_singleton] at hm'
       subst hm'
       exact ⟨"GTTT", rfl⟩,
   unitig_sequence_length unitigExample unitigExampleGraph unitigExampleSeqs
     [⟨⟨"a", '+'⟩, (some ⟨"b", '+'⟩, 2)⟩] ⟨⟨"b", '+'⟩, (none, 0)⟩
     rfl
     (by
       intro m hm
       rw [List.mem_singleton] at hm
       subst hm
       exact ⟨⟨"b", '+'⟩, rfl⟩)
     rfl
     (by
       intro m hm
       rcases List.mem_cons.mp hm with h | hm'
       · subst h
         exact ⟨"ACGT", rfl⟩
       · rw [List.mem_singleton] at hm'
         subst hm'
         exact ⟨"GTTT", rfl⟩)⟩

/-! ## Claim C2: proper-overlap positivity -/

set_option maxHeartbeats 1000000 in
/-- Claim C2.  Every alignment that classify_alignment emits as a proper
Overlap has all four recorded edge lengths strictly positive: the raw pair
(edge_len_orig, rc_edge_len_orig) by the explicit positivity guard, and the
coverage-refined pair (edge_len, rc_edge_len) because the alignment passed
the containment tests (at the proper stage b1 = b2 is impossible, and the
non-contained side forces the refined differences positive), while the
min-overlap-length filter bounds all four i64 quantities below 2^32 so the
`as u32` casts cannot wrap them to 0.  Hypotheses are PAF well-formedness
(0 <= start <= end <= length on both reads, lengths < 2^32 as u32 values)
and coverage-window sanity (start <= end <= read length). -/
theorem classify_alignment_proper_positive
    (r : PafRec) (qcs qce tcs tce : Nat) (overhangRat : Frac) (mol : Nat)
    (ov : Overlap)
    (hqs0 : 0 ≤ r.query_start) (hqse : r.query_start ≤ r.query_end)
    (hqel : r.query_end ≤ (r.query_length : Int))
    (hts0 : 0 ≤ r.target_start) (htse : r.target_start ≤ r.target_end)
    (htel : r.target_end ≤ (r.target_length : Int))
    (hqc1 : qcs ≤ qce) (hqc2 : qce ≤ r.query_length)
    (htc1 : tcs ≤ tce) (htc2 : tce ≤ r.target_length)
    (hql : r.query_length < 2 ^ 32) (htl : r.target_length < 2 ^ 32)
    (hov : (classify_alignment r qcs qce tcs tce overhangRat mol).2 = some ov) :
    0 < ov.edge_len ∧ 0 < ov.rc_edge_len ∧ 0 < ov.edge_len_orig
      ∧ 0 < ov.rc_edge_len_orig := by
  unfold classify_alignment at hov
  by_cases hstrand : r.strand = '+'
  · simp only [if_pos hstrand] at hov
    split at hov
    · cases hov
    · split at hov
      · cases hov
      · split at hov
        · cases hov
        · split at hov
          · cases hov
          · split at hov
            · split at hov
              · simp only [Option.some.injEq] at hov
                subst hov
                dsimp only
                unfold u32WrapOfInt
                refine ⟨by omega, by omega, by omega, by omega⟩
              · cases hov
            · split at hov
              · simp only [Option.some.injEq] at hov
                subst hov
                dsimp only
                unfold u32WrapOfInt
                refine ⟨by omega, by omega, by omega, by omega⟩
              · cases hov
  · simp only [if_neg hstrand] at hov
    split at hov
    · cases hov
    · split at hov
      · cases hov
      · split at hov
        · cases hov
        · split at hov
          · cases hov
          · split at hov
            · split at hov
              · simp only [Option.some.injEq] at hov
                subst hov
                dsimp only
                unfold u32WrapOfInt
                refine ⟨by omega, by omega, by omega, by omega⟩
              · cases hov
            · split at hov
              · simp only [Option.some.injEq] at hov
                subst hov
                dsimp only
                unfold u32WrapOfInt
                refine ⟨by omega, by omega, by omega, by omega⟩
              · cases hov

theorem classify_alignment_proper_positive_witness :
    0 ≤ classifyExampleRec.query_start
    ∧ classifyExampleRec.query_start ≤ classifyExampleRec.query_end
    ∧ classifyExampleRec.query_end ≤ (classifyExampleRec.query_length : Int)
    ∧ 0 ≤ classifyExampleRec.target_start
    ∧ classifyExampleRec.target_start ≤ classifyExampleRec.target_end
    ∧ classifyExampleRec.target_end ≤ (classifyExampleRec.target_length : Int)
    ∧ (0 : Nat) ≤ 10 ∧ 10 ≤ classifyExampleRec.query_length
    ∧ (0 : Nat) ≤ 10 ∧ 10 ≤ classifyExampleRec.target_length
    ∧ classifyExampleRec.query_length < 2 ^ 32
    ∧ classifyExampleRec.target_length < 2 ^ 32
    ∧ (classify_alignment classifyExampleRec 0 10 0 10 (Frac.mk 1 1) 1).2
        = some classifyExampleOv
    ∧ (0 < classifyExampleOv.edge_len ∧ 0 < classifyExampleOv.rc_edge_len
        ∧ 0 < classifyExampleOv.edge_len_orig
        ∧ 0 < classifyExampleOv.rc_edge_len_orig) :=
  ⟨by decide, by decide, by decide, by decide, by decide, by decide, by decide,
   by decide, by decide, by decide, by decide, by decide, by decide,
   classify_alignment_proper_positive classifyExampleRec 0 10 0 10 (Frac.mk 1 1) 1
     classifyExampleOv (by decide) (by decide) (by decide) (by decide) (by decide)
     (by decide) (by decide) (by decide) (by decide) (by decide) (by decide)
     (by decide) (by decide)⟩

/-! ## Claim C1: bidirected symmetry of create_overlap_graph -/

theorem rc_rc (x : NodeId) : rc_node (rc_node x) = x := by
  obtain ⟨nm, sg⟩ := x
  unfold rc_node
  by_cases h1 : sg = '+'
  · subst h1
    rfl
  · by_cases h2 : sg = '-'
    · subst h2
      rfl
    · simp only [h1, h2, if_neg, if_false]

theorem edgesOf_eq_getNode {g : OverlapGraph} {u : NodeId} {n : Node}
    (h : g.getNode u = some n) : edgesOf g u = n.edges := by
  unfold edgesOf
  rw [h]
  rfl

theorem edgesOf_add_node (g : OverlapGraph) (x u : NodeId) :
    edgesOf (g.add_node x) u = edgesOf g u := by
  unfold OverlapGraph.add_node
  split
  · rfl
  · unfold edgesOf OverlapGraph.getNode
    dsimp only
    rw [List.find?_append]
    cases hf : g.nodes.find? (fun p => decide (p.1 = u)) with
    | some p => rfl
    | none =>
      rw [List.find?_cons]
      by_cases hxu : x = u
      · rw [show (decide ((((x : NodeId), (⟨[]⟩ : Node)) : NodeId × Node).1 = u)) = true
          from decide_eq_true hxu]
        rfl
      · rw [show (decide ((((x : NodeId), (⟨[]⟩ : Node)) : NodeId × Node).1 = u)) = false
          from decide_eq_false hxu]
        rfl

theorem hasNode_add_node_self (g : OverlapGraph) (x : NodeId) :
    (g.add_node x).hasNode x = true := by
  unfold OverlapGraph.add_node OverlapGraph.hasNode
  split
  · rename_i h
    exact h
  · dsimp only
    rw [List.find?_append]
    cases hf : g.nodes.find? (fun p => decide (p.1 = x)) with
    | some p => rfl
    | none =>
      rw [List.find?_cons]
      rw [show (decide ((((x : NodeId), (⟨[]⟩ : Node)) : NodeId × Node).1 = x)) = true
        from decide_eq_true rfl]
      rfl

theorem hasNode_add_node_mono {g : OverlapGraph} {u : NodeId} (x : NodeId)
    (h : g.hasNode u = true) : (g.add_node x).hasNode u = true := by
  unfold OverlapGraph.add_node
  split
  · exact h
  · unfold OverlapGraph.hasNode at h ⊢
    dsimp only
    rw [List.find?_append]
    cases hf : g.nodes.find? (fun p => decide (p.1 = u)) with
    | some p => rfl
    | none =>
      rw [hf] at h
      cases h

theorem hasNode_eq_keys (g : OverlapGraph) (u : NodeId) :
    g.hasNode u = g.keys.contains u := by
  unfold OverlapGraph.hasNode OverlapGraph.keys
  induction g.nodes with
  | nil => rfl
  | cons p t ih =>
    rw [List.find?_cons, List.map_cons]
    by_cases hpu : p.1 = u
    · rw [show (decide (p.1 = u)) = true from decide_eq_true hpu]
      show true = (p.1 :: List.map Prod.fst t).contains u
      rw [List.contains_cons]
      have : (u == p.1) = true := by
        rw [beq_iff_eq]
        exact hpu.symm
      rw [this, Bool.true_or]
    · rw [show (decide (p.1 = u)) = false from decide_eq_false hpu]
      rw [ih]
      show _ = (p.1 :: List.map Prod.fst t).contains u
      rw [List.contains_cons]
      have : (u == p.1) = false := by
        rw [beq_eq_false_iff_ne]
        exact fun h => hpu h.symm
      rw [this, Bool.false_or]

theorem hasNode_add_edge (g : OverlapGraph) (a b : NodeId) (l ov : Nat) (idn : Frac)
    (u : NodeId) : (g.add_edge a b l ov idn).hasNode u = g.hasNode u := by
  unfold OverlapGraph.add_edge
  split
  · cases hga : g.getNode a with
    | none => rfl
    | some n =>
      rw [hasNode_eq_keys, hasNode_eq_keys, keys_setNode]
  · rfl

theorem getNode_of_hasNode {g : OverlapGraph} {a : NodeId}
    (h : g.hasNode a = true) : ∃ n, g.getNode a = some n := by
  unfold OverlapGraph.hasNode at h
  unfold OverlapGraph.getNode
  cases hf : g.nodes.find? (fun p => p.1 = a) with
  | none => rw [hf] at h; cases h
  | some p => exact ⟨p.2, rfl⟩

theorem edgesOf_add_edge_ne (g : OverlapGraph) (a b : NodeId) (l ov : Nat)
    (idn : Frac) {u : NodeId} (h : ¬ u = a) :
    edgesOf (g.add_edge a b l ov idn) u = edgesOf g u := by
  unfold OverlapGraph.add_edge
  split
  · cases hga : g.getNode a with
    | none => rfl
    | some n =>
      unfold edgesOf
      rw [getNode_setNode, if_neg h]
  · rfl

theorem edgesOf_add_edge_self (g : OverlapGraph) (a b : NodeId) (l ov : Nat)
    (idn : Frac) (ha : g.hasNode a = true) (hb : g.hasNode b = true) :
    edgesOf (g.add_edge a b l ov idn) a =
      if (edgesOf g a).any (fun e => e.target_id = b) then edgesOf g a
      else edgesOf g a ++ [⟨b, l, ov, idn⟩] := by
  obtain ⟨n, hn⟩ := getNode_of_hasNode ha
  unfold OverlapGraph.add_edge
  rw [if_pos ⟨ha, hb⟩]
  rw [hn]
  unfold edgesOf
  rw [getNode_setNode, if_pos rfl, hn]
  show _ = if (n.edges.any fun e => e.target_id = b) = true then n.edges
    else n.edges ++ [⟨b, l, ov, idn⟩]
  unfold Node.add_edge
  split <;> rfl

theorem edgeSym_twin_insert
    (g g3 : OverlapGraph) (a b : NodeId) (len1 len2 ov : Nat) (idn : Frac)
    (hsym : edgeSym g)
    (hga : g.hasNode a = true) (hgb : g.hasNode b = true)
    (hg3edges : ∀ u, edgesOf g3 u = edgesOf (g.add_edge a b len1 ov idn) u)
    (hg3ra : g3.hasNode (rc_node b) = true) (hg3rb : g3.hasNode (rc_node a) = true) :
    edgeSym (g3.add_edge (rc_node b) (rc_node a) len2 ov idn) := by
  have hG2a : edgesOf (g.add_edge a b len1 ov idn) a =
      if (edgesOf g a).any (fun e => e.target_id = b) then edgesOf g a
      else edgesOf g a ++ [⟨b, len1, ov, idn⟩] :=
    edgesOf_add_edge_self g a b len1 ov idn hga hgb
  have hG2ne : ∀ u, ¬ u = a →
      edgesOf (g.add_edge a b len1 ov idn) u = edgesOf g u :=
    fun u h => edgesOf_add_edge_ne g a b len1 ov idn h
  have hFrb : edgesOf (g3.add_edge (rc_node b) (rc_node a) len2 ov idn) (rc_node b) =
      if (edgesOf g3 (rc_node b)).any (fun e => e.target_id = rc_node a)
      then edgesOf g3 (rc_node b)
      else edgesOf g3 (rc_node b) ++ [⟨rc_node a, len2, ov, idn⟩] :=
    edgesOf_add_edge_self g3 (rc_node b) (rc_node a) len2 ov idn hg3ra hg3rb
  have hFne : ∀ u, ¬ u = rc_node b →
      edgesOf (g3.add_edge (rc_node b) (rc_node a) len2 ov idn) u = edgesOf g3 u :=
    fun u h => edgesOf_add_edge_ne g3 (rc_node b) (rc_node a) len2 ov idn h
  -- dup1 implies dup2
  have hdup12 : (edgesOf g a).any (fun e => e.target_id = b) = true →
      (edgesOf g3 (rc_node b)).any (fun e => e.target_id = rc_node a) = true := by
    intro h1
    obtain ⟨e0, he0, he0b⟩ := List.any_eq_true.mp h1
    have he0b' : e0.target_id = b := by simpa using he0b
    obtain ⟨e4, he4, he4t, -, -⟩ := hsym a e0 he0
    rw [he0b'] at he4
    rw [hg3edges]
    by_cases hrba : rc_node b = a
    · rw [hrba, hG2a, if_pos h1]
      rw [hrba] at he4
      exact List.any_eq_true.mpr ⟨e4, he4, by simpa using he4t⟩
    · rw [hG2ne _ hrba]
      exact List.any_eq_true.mpr ⟨e4, he4, by simpa using he4t⟩
  -- lifting membership from g into the final graph
  have hlift : ∀ u e, e ∈ edgesOf g u →
      e ∈ edgesOf (g3.add_edge (rc_node b) (rc_node a) len2 ov idn) u := by
    intro u e he
    have heG2 : e ∈ edgesOf (g.add_edge a b len1 ov idn) u := by
      by_cases hua : u = a
      · subst hua
        rw [hG2a]
        split
        · exact he
        · exact List.mem_append.mpr (Or.inl he)
      · rw [hG2ne _ hua]
        exact he
    have heg3 : e ∈ edgesOf g3 u := by rw [hg3edges]; exact heG2
    by_cases hurb : u = rc_node b
    · subst hurb
      rw [hFrb]
      split
      · exact heg3
      · exact List.mem_append.mpr (Or.inl heg3)
    · rw [hFne _ hurb]
      exact heg3
  -- decomposition of membership in the final graph
  have hdecomp : ∀ u e,
      e ∈ edgesOf (g3.add_edge (rc_node b) (rc_node a) len2 ov idn) u →
      e ∈ edgesOf g u
      ∨ (u = a ∧ e = ⟨b, len1, ov, idn⟩
          ∧ (edgesOf g a).any (fun e => e.target_id = b) = false)
      ∨ (u = rc_node b ∧ e = ⟨rc_node a, len2, ov, idn⟩
          ∧ (edgesOf g3 (rc_node b)).any (fun e => e.target_id = rc_node a) = false) := by
    intro u e he
    have hG2dec : ∀ v, e ∈ edgesOf (g.add_edge a b len1 ov idn) v →
        e ∈ edgesOf g v
        ∨ (v = a ∧ e = ⟨b, len1, ov, idn⟩
            ∧ (edgesOf g a).any (fun e => e.target_id = b) = false) := by
      intro v hv
      by_cases hva : v = a
      · subst hva
        rw [hG2a] at hv
        by_cases hd : (edgesOf g v).any (fun e => e.target_id = b) = true
        · rw [if_pos hd] at hv
          exact Or.inl hv
        · rw [if_neg hd] at hv
          rcases List.mem_append.mp hv with h | h
          · exact Or.inl h
          · exact Or.inr ⟨rfl, List.mem_singleton.mp h,
              Bool.not_eq_true _ ▸ hd⟩
      · rw [hG2ne _ hva] at hv
        exact Or.inl hv
    by_cases hurb : u = rc_node b
    · subst hurb
      rw [hFrb] at he
      by_cases hd2 : (edgesOf g3 (rc_node b)).any (fun e => e.target_id = rc_node a) = true
      · rw [if_pos hd2] at he
        rw [hg3edges] at he
        rcases hG2dec _ he with h | h
        · exact Or.inl h
        · exact Or.inr (Or.inl h)
      · rw [if_neg hd2] at he
        rcases List.mem_append.mp he with h | h
        · rw [hg3edges] at h
          rcases hG2dec _ h with h' | h'
          · exact Or.inl h'
          · exact Or.inr (Or.inl h')
        · exact Or.inr (Or.inr ⟨rfl, List.mem_singleton.mp h,
            Bool.not_eq_true _ ▸ hd2⟩)
    · rw [hFne _ hurb, hg3edges] at he
      rcases hG2dec _ he with h | h
      · exact Or.inl h
      · exact Or.inr (Or.inl h)
  -- the symmetry proof
  intro u e he
  rcases hdecomp u e he with hold | ⟨hua, hee, hdup1⟩ | ⟨hurb, hee, hdup2⟩
  · obtain ⟨e', he', ht', hov', hid'⟩ := hsym u e hold
    exact ⟨e', hlift _ _ he', ht', hov', hid'⟩
  · -- the newly inserted forward edge a -> b
    subst hua
    subst hee
    show ∃ e' ∈ edgesOf _ (rc_node b), e'.target_id = rc_node u ∧ _ ∧ _
    by_cases hd2 : (edgesOf g3 (rc_node b)).any (fun e => e.target_id = rc_node u) = true
    · -- an edge rc b -> rc a already existed before the second insert
      obtain ⟨e', he', hetany⟩ := List.any_eq_true.mp hd2
      have hetrc : e'.target_id = rc_node u := by simpa using hetany
      rw [hg3edges] at he'
      by_cases hrba : rc_node b = u
      · rw [hrba, hG2a, if_neg (by rw [hdup1]; exact Bool.false_ne_true)] at he'
        rcases List.mem_append.mp he' with h | h
        · -- an old edge at u with target rc u = b: contradicts dup1 = false
          exfalso
          have hbrc : b = rc_node u := by
            rw [← hrba, rc_rc]
          have : (edgesOf g u).any (fun e => e.target_id = b) = true :=
            List.any_eq_true.mpr ⟨e', h, by
              rw [hbrc]
              simpa using hetrc⟩
          rw [hdup1] at this
          cases this
        · -- e' is the forward edge itself: it is its own RC twin
          have he'' : e' = ⟨b, len1, ov, idn⟩ := List.mem_singleton.mp h
          refine ⟨e', ?_, hetrc, by rw [he''], by rw [he'']⟩
          have hmem : e' ∈ edgesOf g3 (rc_node b) := by
            rw [hg3edges, hrba, hG2a,
              if_neg (by rw [hdup1]; exact Bool.false_ne_true)]
            exact List.mem_append.mpr (Or.inr (List.mem_singleton.mpr he''))
          rw [hFrb, if_pos hd2]
          exact hmem
      · -- rc b is a different node: its old edge's twin would sit at u
        -- with target b, contradicting dup1 = false
        exfalso
        rw [hG2ne _ hrba] at he'
        obtain ⟨e3, he3, he3t, -, -⟩ := hsym (rc_node b) e' he'
        rw [hetrc, rc_rc] at he3
        have : (edgesOf g u).any (fun e => e.target_id = b) = true :=
          List.any_eq_true.mpr ⟨e3, he3, by
            rw [rc_rc] at he3t
            simpa using he3t⟩
        rw [hdup1] at this
        cases this
    · -- the second insert creates the twin
      refine ⟨⟨rc_node u, len2, ov, idn⟩, ?_, rfl, rfl, rfl⟩
      rw [hFrb, if_neg hd2]
      exact List.mem_append.mpr (Or.inr (List.mem_singleton.mpr rfl))
  · -- the newly inserted RC edge rc b -> rc a
    subst hurb
    subst hee
    have hdup1' : (edgesOf g a).any (fun e => e.target_id = b) = false := by
      by_cases h : (edgesOf g a).any (fun e => e.target_id = b) = true
      · rw [hdup12 h] at hdup2
        cases hdup2
      · exact Bool.not_eq_true _ ▸ h
    -- the forward edge was inserted; it is the RC twin of the RC edge
    have hfwd : (⟨b, len1, ov, idn⟩ : EdgeInfo) ∈
        edgesOf (g.add_edge a b len1 ov idn) a := by
      rw [hG2a, if_neg (by rw [hdup1']; exact Bool.false_ne_true)]
      exact List.mem_append.mpr (Or.inr (List.mem_singleton.mpr rfl))
    refine ⟨⟨b, len1, ov, idn⟩, ?_, ?_, rfl, rfl⟩
    · show _ ∈ edgesOf _ (rc_node (rc_node a))
      by_cases harb : a = rc_node b
      · subst harb
        rw [show rc_node (rc_node (rc_node b)) = rc_node b from by rw [rc_rc]]
        rw [hFrb]
        split
        · rw [hg3edges]
          exact hfwd
        · refine List.mem_append.mpr (Or.inl ?_)
          rw [hg3edges]
          exact hfwd
      · rw [rc_rc, hFne _ harb, hg3edges]
        exact hfwd
    · show _ = rc_node (rc_node b)
      rw [rc_rc]

theorem edgeSym_add_node {g : OverlapGraph} (x : NodeId) (h : edgeSym g) :
    edgeSym (g.add_node x) := by
  intro u e he
  rw [edgesOf_add_node] at he
  obtain ⟨e', he', ht', hov', hid'⟩ := h u e he
  exact ⟨e', by rw [edgesOf_add_node]; exact he', ht', hov', hid'⟩

theorem edgeSym_empty : edgeSym ⟨[]⟩ := by
  intro u e he
  cases he

theorem edgeSym_processPafRecord (mo : Nat) (rat : Frac)
    (g : OverlapGraph) (stats : OverlapGraphStats) (r : PafRec)
    (hstrand : r.strand = '+' ∨ r.strand = '-')
    (hsym : edgeSym g) :
    edgeSym (processPafRecord mo rat (g, stats) r).1 := by
  unfold processPafRecord
  dsimp only
  split
  · -- r.strand = '+'
    rename_i hst
    split
    · exact hsym
    · split
      · exact hsym
      · split
        · exact hsym
        · rename_i hover hfc hsc
          split
          · rename_i hb
            rw [if_pos (show (0 : Int) ≤
                (r.target_length : Int) - r.target_end
                  - ((r.query_length : Int) - r.query_end) by omega)]
            rw [if_pos (show (0 : Int) ≤ r.query_start - r.target_start by omega)]
            dsimp only
            rw [hst]
            rw [show (⟨r.query_name, '-'⟩ : NodeId)
              = rc_node ⟨r.query_name, '+'⟩ from rfl]
            rw [show (⟨r.target_name, '-'⟩ : NodeId)
              = rc_node ⟨r.target_name, '+'⟩ from rfl]
            refine edgeSym_twin_insert
              ((g.add_node ⟨r.query_name, '+'⟩).add_node ⟨r.target_name, '+'⟩) _ _ _
              (u32WrapOfInt (r.query_start - r.target_start)) _ _ _ ?_ ?_ ?_ ?_ ?_ ?_
            · exact edgeSym_add_node _ (edgeSym_add_node _ hsym)
            · exact hasNode_add_node_mono _ (hasNode_add_node_self g _)
            · exact hasNode_add_node_self _ _
            · intro u
              rw [edgesOf_add_node, edgesOf_add_node]
            · exact hasNode_add_node_self _ _
            · exact hasNode_add_node_mono _ (hasNode_add_node_self _ _)
          · rename_i hb
            rw [if_pos (show (0 : Int) ≤
                (r.query_length : Int) - r.query_end
                  - ((r.target_length : Int) - r.target_end) by omega)]
            rw [if_pos (show (0 : Int) ≤ r.target_start - r.query_start by omega)]
            dsimp only
            rw [hst]
            rw [show (⟨r.query_name, '-'⟩ : NodeId)
              = rc_node ⟨r.query_name, '+'⟩ from rfl]
            rw [show (⟨r.target_name, '-'⟩ : NodeId)
              = rc_node ⟨r.target_name, '+'⟩ from rfl]
            refine edgeSym_twin_insert
              ((g.add_node ⟨r.query_name, '+'⟩).add_node ⟨r.target_name, '+'⟩) _ _ _
              (u32WrapOfInt (r.target_start - r.query_start)) _ _ _ ?_ ?_ ?_ ?_ ?_ ?_
            · exact edgeSym_add_node _ (edgeSym_add_node _ hsym)
            · exact hasNode_add_node_self _ _
            · exact hasNode_add_node_mono _ (hasNode_add_node_self g _)
            · intro u
              rw [edgesOf_add_node, edgesOf_add_node]
            · exact hasNode_add_node_mono _ (hasNode_add_node_self _ _)
            · exact hasNode_add_node_self _ _
  · -- r.strand = '-'
    rename_i hst
    have hst' : r.strand = '-' := hstrand.resolve_left hst
    split
    · exact hsym
    · split
      · exact hsym
      · split
        · exact hsym
        · rename_i hover hfc hsc
          split
          · rename_i hb
            rw [if_pos (show (0 : Int) ≤
                ((r.target_length : Int) - ((r.target_length : Int) - r.target_start))
                  - ((r.query_length : Int) - r.query_end) by omega)]
            rw [if_pos (show (0 : Int) ≤
                r.query_start - ((r.target_length : Int) - r.target_end) by omega)]
            dsimp only
            rw [hst']
            rw [show (⟨r.query_name, '-'⟩ : NodeId)
              = rc_node ⟨r.query_name, '+'⟩ from rfl]
            rw [show (⟨r.target_name, '+'⟩ : NodeId)
              = rc_node ⟨r.target_name, '-'⟩ from rfl]
            refine edgeSym_twin_insert
              ((g.add_node ⟨r.query_name, '+'⟩).add_node ⟨r.target_name, '-'⟩) _ _ _
              (u32WrapOfInt (r.query_start - ((r.target_length : Int) - r.target_end))) _ _ _
              ?_ ?_ ?_ ?_ ?_ ?_
            · exact edgeSym_add_node _ (edgeSym_add_node _ hsym)
            · exact hasNode_add_node_mono _ (hasNode_add_node_self g _)
            · exact hasNode_add_node_self _ _
            · intro u
              rw [edgesOf_add_node, edgesOf_add_node]
            · exact hasNode_add_node_self _ _
            · exact hasNode_add_node_mono _ (hasNode_add_node_self _ _)
          · rename_i hb
            rw [if_pos (show (0 : Int) ≤
                ((r.query_length : Int) - r.query_end)
                  - ((r.target_length : Int) - ((r.target_length : Int) - r.target_start)) by omega)]
            rw [if_pos (show (0 : Int) ≤
                ((r.target_length : Int) - r.target_end) - r.query_start by omega)]
            dsimp only
            rw [hst']
            rw [show (⟨r.query_name, '-'⟩ : NodeId)
              = rc_node ⟨r.query_name, '+'⟩ from rfl]
            rw [show (⟨r.target_name, '+'⟩ : NodeId)
              = rc_node ⟨r.target_name, '-'⟩ from rfl]
            refine edgeSym_twin_insert
              ((g.add_node ⟨r.query_name, '+'⟩).add_node ⟨r.target_name, '-'⟩) _ _ _
              (u32WrapOfInt (((r.target_length : Int) - r.target_end) - r.query_start)) _ _ _
              ?_ ?_ ?_ ?_ ?_ ?_
            · exact edgeSym_add_node _ (edgeSym_add_node _ hsym)
            · exact hasNode_add_node_self _ _
            · exact hasNode_add_node_mono _ (hasNode_add_node_self g _)
            · intro u
              rw [edgesOf_add_node, edgesOf_add_node]
            · exact hasNode_add_node_mono _ (hasNode_add_node_self _ _)
            · exact hasNode_add_node_self _ _

theorem edgeSym_createFold (mo : Nat) (rat : Frac) :
    ∀ (records : List PafRec) (st : OverlapGraph × OverlapGraphStats),
    (∀ r ∈ records, r.strand = '+' ∨ r.strand = '-') →
    edgeSym st.1 →
    edgeSym (records.foldl (processPafRecord mo rat) st).1 := by
  intro records
  induction records with
  | nil =>
    intro st _ h
    exact h
  | cons r rs ih =>
    intro st hstr h
    rw [List.foldl_cons]
    apply ih
    · exact fun x hx => hstr x (List.mem_cons_of_mem r hx)
    · obtain ⟨g, stats⟩ := st
      exact edgeSym_processPafRecord mo rat g stats r
        (hstr r (List.mem_cons_self r rs)) h

/-- Claim C1.  After create_overlap_graph completes on any PAF input whose
records all carry strand '+' or '-', the graph is bidirected-symmetric:
for every edge u -> v the edge rc(v) -> rc(u) is present with equal
overlap_len and identity.  The two sign guards of a proper overlap cannot
fail alone: in the b1 > b2 branch the first guard is the branch condition
and the second follows from the failed second-containment test, and
symmetrically in the other branch; the duplicate-target check of add_edge
cannot break the pairing either, because by the invariant an edge and its
twin are always either both present or both absent before each record. -/
theorem create_overlap_graph_rc_symmetric (records : List PafRec)
    (mo : Nat) (rat : Frac)
    (hstrand : ∀ r ∈ records, r.strand = '+' ∨ r.strand = '-') :
    edgeSym (create_overlap_graph records mo rat).1 := by
  unfold create_overlap_graph
  exact edgeSym_createFold mo rat records _ hstrand edgeSym_empty

theorem create_overlap_graph_rc_symmetric_witness :
    (∀ r ∈ [classifyExampleRec], r.strand = '+' ∨ r.strand = '-')
    ∧ edgeSym (create_overlap_graph [classifyExampleRec] 100 (Frac.mk 1 1)).1 :=
  ⟨by decide,
   create_overlap_graph_rc_symmetric [classifyExampleRec] 100 (Frac.mk 1 1) (by decide)⟩
